import Mathlib

/-!
# Prometheus to Mimir bridge

A shallow embedding of `mimir-read-no-agent/mimir-client.go`:
`scrapeMetrics`, `convertToTimeseries`, `pushToMimir` and `scrapeAndPush`.

Modelling conventions.

* Protobuf messages of `io_prometheus_client` are records; an optional field
  (a Go pointer) is an `Option`, and the generated nil-safe getters
  (`GetName`, `GetValue`, ...) return the Go zero value for an unset field.
  A repeated message field is a list of records (protobuf repeated fields hold
  no nil element).
* `uint64` values are natural numbers, `int64` and `int` values are integers.
* `float64` values are carried by their IEEE-754 bit pattern.
* Go slices of `prompb.Label` are slice headers (backing array, length,
  capacity) over an explicit heap of backing arrays, because `append` writes
  in place when the capacity allows it.
* What the Go runtime and libraries decide (the capacity `append` picks when
  it reallocates, the text `fmt.Sprintf("%v", x)` gives for a float) is a
  parameter of the embedding, `GoRuntime`.
-/

set_option linter.dupNamespace false

namespace MimirClient

/-! ## Numbers -/

/-- IEEE-754 binary64 value, carried by its bit pattern. -/
structure Float64 where
  bits : Nat
deriving DecidableEq, Repr

/-- Number of binary digits of `n`, for `n` below `2 ^ fuel`. -/
def bitLen : Nat → Nat → Nat
  | 0, _ => 0
  | fuel + 1, n => if n = 0 then 0 else bitLen fuel (n / 2) + 1

/-- Go conversion `float64(n)` of a `uint64`: round to nearest, ties to even. -/
def float64OfUint64 (n : Nat) : Float64 :=
  if n = 0 then ⟨0⟩
  else
    let e := bitLen 64 n - 1
    if e ≤ 52 then ⟨(e + 1023) * 2 ^ 52 + (n * 2 ^ (52 - e) - 2 ^ 52)⟩
    else
      let sh := e - 52
      let q := n / 2 ^ sh
      let r := n % 2 ^ sh
      let half := 2 ^ (sh - 1)
      let q1 := if half < r ∨ (r = half ∧ q % 2 = 1) then q + 1 else q
      ⟨(e + 1023) * 2 ^ 52 + (q1 - 2 ^ 52)⟩

/-! ## The scraped model: package `io_prometheus_client` -/

/-- Enum `io_prometheus_client.MetricType`. -/
inductive MetricType where
  | COUNTER
  | GAUGE
  | SUMMARY
  | UNTYPED
  | HISTOGRAM
  | GAUGE_HISTOGRAM
deriving DecidableEq, Repr

/-- Message `LabelPair`. -/
structure LabelPair where
  Name : Option String
  Value : Option String
deriving DecidableEq, Repr

/-- Message `Counter` (the fields the bridge reads). -/
structure Counter where
  Value : Option Float64
deriving DecidableEq, Repr

/-- Message `Gauge`. -/
structure Gauge where
  Value : Option Float64
deriving DecidableEq, Repr

/-- Message `Untyped`. -/
structure Untyped where
  Value : Option Float64
deriving DecidableEq, Repr

/-- Message `Quantile`. -/
structure Quantile where
  Quantile : Option Float64
  Value : Option Float64
deriving DecidableEq, Repr

/-- Message `Summary`. -/
structure Summary where
  SampleCount : Option Nat
  SampleSum : Option Float64
  Quantile : List MimirClient.Quantile
deriving DecidableEq, Repr

/-- Message `Bucket` (the fields the bridge reads). -/
structure Bucket where
  CumulativeCount : Option Nat
  UpperBound : Option Float64
deriving DecidableEq, Repr

/-- Message `Histogram` (the fields the bridge reads). -/
structure Histogram where
  SampleCount : Option Nat
  SampleSum : Option Float64
  Bucket : List MimirClient.Bucket
deriving DecidableEq, Repr

/-- Message `Metric`. -/
structure Metric where
  Label : List LabelPair
  Gauge : Option MimirClient.Gauge
  Counter : Option MimirClient.Counter
  Summary : Option MimirClient.Summary
  Untyped : Option MimirClient.Untyped
  Histogram : Option MimirClient.Histogram
deriving DecidableEq, Repr

/-- Message `MetricFamily`. A nil `*MetricFamily` behaves, through the getters,
as the record with every field unset. The field `Type` is spelled `Type_`. -/
structure MetricFamily where
  Name : Option String
  Type_ : Option MetricType
  Metric : List MimirClient.Metric
deriving DecidableEq, Repr

def LabelPair.GetName (l : LabelPair) : String := l.Name.getD ""

def LabelPair.GetValue (l : LabelPair) : String := l.Value.getD ""

def Counter.GetValue (c : Counter) : Float64 := c.Value.getD ⟨0⟩

def Gauge.GetValue (g : Gauge) : Float64 := g.Value.getD ⟨0⟩

def Untyped.GetValue (u : Untyped) : Float64 := u.Value.getD ⟨0⟩

def Summary.GetSampleSum (s : Summary) : Float64 := s.SampleSum.getD ⟨0⟩

def Summary.GetSampleCount (s : Summary) : Nat := s.SampleCount.getD 0

def Histogram.GetSampleSum (h : Histogram) : Float64 := h.SampleSum.getD ⟨0⟩

def Histogram.GetSampleCount (h : Histogram) : Nat := h.SampleCount.getD 0

def Histogram.GetBucket (h : Histogram) : List MimirClient.Bucket := h.Bucket

def Bucket.GetUpperBound (b : Bucket) : Float64 := b.UpperBound.getD ⟨0⟩

def Bucket.GetCumulativeCount (b : Bucket) : Nat := b.CumulativeCount.getD 0

def Metric.GetLabel (m : Metric) : List LabelPair := m.Label

def MetricFamily.GetName (mf : MetricFamily) : String := mf.Name.getD ""

def MetricFamily.GetType (mf : MetricFamily) : MetricType := mf.Type_.getD MetricType.COUNTER

def MetricFamily.GetMetric (mf : MetricFamily) : List MimirClient.Metric := mf.Metric

/-! ## The remote-write model: package `prompb` -/

/-- Message `prompb.Label`. -/
structure Label where
  Name : String
  Value : String
deriving DecidableEq, Repr

/-- Message `prompb.Sample`. -/
structure Sample where
  Value : Float64
  Timestamp : Int
deriving DecidableEq, Repr

/-- Message `prompb.TimeSeries` as a caller reads it: the labels are the
elements its `Labels` slice shows. -/
structure TimeSeries where
  Labels : List Label
  Samples : List Sample
deriving DecidableEq, Repr

/-! ## Go slices of labels -/

/-- Header of a `[]prompb.Label`: the backing array (by allocation number),
the length and the capacity. Every slice of the bridge starts at offset 0. -/
structure LabelSlice where
  array : Nat
  len : Nat
  cap : Nat
deriving DecidableEq, Repr

/-- Backing arrays in allocation order. -/
abbrev Heap := List (List Label)

/-- Zero value of `prompb.Label`, the content of fresh array slots. -/
def zeroLabel : Label := ⟨"", ""⟩

/-- What the Go runtime and libraries decide. -/
structure GoRuntime where
  /-- Text of `fmt.Sprintf("%v", x)` for a `float64`. -/
  sprintV : Float64 → String
  /-- Capacity `append` gives the new array when it reallocates, from the
  needed length and the old capacity. -/
  growCap : Nat → Nat → Nat

/-- Loop of `runtime.nextslicecap` for old capacities of 256 and more. -/
def nextslicecapLoop (newLen : Nat) : Nat → Nat → Nat
  | 0, newcap => newcap
  | fuel + 1, newcap =>
    let c := newcap + (newcap + 3 * 256) / 4
    if newLen ≤ c then c else nextslicecapLoop newLen fuel c

/-- Function `runtime.nextslicecap` of the gc toolchain (Go 1.18 and later):
the capacity asked for before rounding to an allocation size class. -/
def nextslicecap (newLen oldCap : Nat) : Nat :=
  let doublecap := oldCap + oldCap
  if doublecap < newLen then newLen
  else if oldCap < 256 then doublecap
  else nextslicecapLoop newLen newLen oldCap

/-- Built-in `append(s, x)` for one element: when the capacity allows it the
element is written into the backing array of `s`, otherwise a new array is
allocated, the elements of `s` are copied and the element is stored after them. -/
def appendLabel (rt : GoRuntime) (heap : Heap) (s : LabelSlice) (x : Label) : Heap × LabelSlice :=
  if s.len < s.cap then
    (heap.set s.array ((heap.getD s.array []).set s.len x), ⟨s.array, s.len + 1, s.cap⟩)
  else
    let newCap := rt.growCap (s.len + 1) s.cap
    (heap ++ [(heap.getD s.array []).take s.len ++ x :: List.replicate (newCap - (s.len + 1)) zeroLabel],
      ⟨heap.length, s.len + 1, newCap⟩)

/-- Elements a slice shows in a heap. -/
def readLabels (heap : Heap) (s : LabelSlice) : List Label :=
  (heap.getD s.array []).take s.len

/-- Message `prompb.TimeSeries` in memory: `Labels` is a slice header. -/
structure SeriesRef where
  Labels : LabelSlice
  Samples : List Sample
deriving DecidableEq, Repr

/-- Series as read from a heap. -/
def readSeries (heap : Heap) (r : SeriesRef) : TimeSeries :=
  ⟨readLabels heap r.Labels, r.Samples⟩

/-! ## convertToTimeseries -/

/-- Variables of `convertToTimeseries` that change in its loops: the heap of
label arrays and the local `timeseries`. -/
structure ConvState where
  heap : Heap
  timeseries : List SeriesRef
deriving DecidableEq, Repr

/-- Lines 116-126: the slice literal with `__name__`, then one `append` per
label of the metric. -/
def buildLabels (rt : GoRuntime) (heap : Heap) (metricName : String) (metric : Metric) :
    Heap × LabelSlice :=
  metric.GetLabel.foldl
    (fun hs label => appendLabel rt hs.1 hs.2 ⟨label.GetName, label.GetValue⟩)
    (heap ++ [[⟨"__name__", metricName⟩]], ⟨heap.length, 1, 1⟩)

/-- Lines 170-181: one series per bucket, its labels `append(labels, le=...)`. -/
def bucketStep (rt : GoRuntime) (timestamp : Int) (labels : LabelSlice) (st : ConvState)
    (bucket : Bucket) : ConvState :=
  let r := appendLabel rt st.heap labels ⟨"le", rt.sprintV bucket.GetUpperBound⟩
  ⟨r.1, st.timeseries ++
    [⟨r.2, [⟨float64OfUint64 bucket.GetCumulativeCount, timestamp⟩]⟩]⟩

/-- Lines 200-207: the series of a scalar metric, appended when `found` is set;
`found` is `some value` for the Go pair `value, found = value, true`. -/
def emitFound (timestamp : Int) (heap : Heap) (labels : LabelSlice)
    (timeseries : List SeriesRef) (found : Option Float64) : ConvState :=
  match found with
  | some value => ⟨heap, timeseries ++ [⟨labels, [⟨value, timestamp⟩]⟩]⟩
  | none => ⟨heap, timeseries⟩

/-- Lines 114-208: the body of the loop over the metrics of one family. A type
outside the five cases of the `switch` leaves `found` false. -/
def convertMetric (rt : GoRuntime) (timestamp : Int) (metricName : String)
    (metricType : MetricType) (st : ConvState) (metric : Metric) : ConvState :=
  let b := buildLabels rt st.heap metricName metric
  let labels := b.2
  let scalar := emitFound timestamp b.1 labels st.timeseries
  match metricType with
  | .COUNTER => scalar (metric.Counter.map Counter.GetValue)
  | .GAUGE => scalar (metric.Gauge.map Gauge.GetValue)
  | .UNTYPED => scalar (metric.Untyped.map Untyped.GetValue)
  | .SUMMARY =>
    match metric.Summary with
    | some summary =>
      let s := appendLabel rt b.1 labels ⟨"quantile", "sum"⟩
      let ts1 := st.timeseries ++ [⟨s.2, [⟨summary.GetSampleSum, timestamp⟩]⟩]
      let c := appendLabel rt s.1 labels ⟨"quantile", "count"⟩
      ⟨c.1, ts1 ++ [⟨c.2, [⟨float64OfUint64 summary.GetSampleCount, timestamp⟩]⟩]⟩
    | none => ⟨b.1, st.timeseries⟩
  | .HISTOGRAM =>
    match metric.Histogram with
    | some histogram =>
      let st1 := histogram.GetBucket.foldl (bucketStep rt timestamp labels) ⟨b.1, st.timeseries⟩
      let s := appendLabel rt st1.heap labels ⟨"le", "sum"⟩
      let ts1 := st1.timeseries ++ [⟨s.2, [⟨histogram.GetSampleSum, timestamp⟩]⟩]
      let c := appendLabel rt s.1 labels ⟨"le", "count"⟩
      ⟨c.1, ts1 ++ [⟨c.2, [⟨float64OfUint64 histogram.GetSampleCount, timestamp⟩]⟩]⟩
    | none => ⟨b.1, st.timeseries⟩
  | .GAUGE_HISTOGRAM => scalar none

/-- Lines 110-209: the body of the loop over the families. -/
def convertFamily (rt : GoRuntime) (timestamp : Int) (st : ConvState) (mf : MetricFamily) :
    ConvState :=
  mf.GetMetric.foldl (convertMetric rt timestamp mf.GetName mf.GetType) st

/-- Function `convertToTimeseries`, in memory. `timestamp` is the value of
`time.Now().UnixMilli()` read at line 107; `metricFamilies` lists the values of
the map in the order the `range` visits them (the keys are not read). -/
def convertToTimeseriesMem (rt : GoRuntime) (timestamp : Int)
    (metricFamilies : List MetricFamily) : ConvState :=
  metricFamilies.foldl (convertFamily rt timestamp) ⟨[], []⟩

/-- Function `convertToTimeseries`: the returned batch as the caller reads it,
and the returned error (`none` is nil). -/
def convertToTimeseries (rt : GoRuntime) (timestamp : Int)
    (metricFamilies : List MetricFamily) : List TimeSeries × Option String :=
  let st := convertToTimeseriesMem rt timestamp metricFamilies
  (st.timeseries.map (readSeries st.heap), none)

/-- Table `class_to_size` of the gc allocator without its leading 0: the sizes
in bytes of the small allocation classes. -/
def sizeClasses : List Nat :=
  [8, 16, 24, 32, 48, 64, 80, 96, 112, 128, 144, 160, 176, 192, 208, 224, 240, 256, 288, 320,
    352, 384, 416, 448, 480, 512, 576, 640, 704, 768, 896, 1024, 1152, 1280, 1408, 1536, 1792,
    2048, 2304, 2688, 3072, 3200, 3456, 4096, 4864, 5376, 6144, 6528, 6784, 6912, 8192, 9472,
    9728, 10240, 10880, 12288, 13568, 14336, 16384, 18432, 19072, 20480, 21760, 24576, 27264,
    28672, 32768]

/-- Function `runtime.roundupsize` (Go 1.22 and later, 64-bit): the bytes the
allocator hands out for a request of `size` bytes. A small request is rounded
up to a size class; when the memory holds pointers and exceeds 512 bytes, the
8 bytes of the malloc header are taken from the class. A large request is
rounded up to whole pages of 8192 bytes. -/
def roundupsize (size : Nat) (noscan : Bool) : Nat :=
  if size ≤ 32768 - 8 then
    let reqSize := if noscan = false ∧ 512 < size then size + 8 else size
    match sizeClasses.find? (fun c => decide (reqSize ≤ c)) with
    | some c => c - (reqSize - size)
    | none => size
  else (size + 8191) / 8192 * 8192

/-- Size in bytes of a `prompb.Label` on a 64-bit platform: two strings, the
`XXX_unrecognized` byte slice and the `XXX_sizecache` counter, padded. -/
def labelSize : Nat := 64

/-- Capacity `runtime.growslice` gives a reallocated `[]prompb.Label`: the
capacity `nextslicecap` asks for, in bytes rounded by `roundupsize` (a label
holds pointers), in elements again. -/
def growsliceCap (newLen oldCap : Nat) : Nat :=
  roundupsize (nextslicecap newLen oldCap * labelSize) false / labelSize

/-- The gc runtime (Go 1.22 and later, 64-bit) with a float formatter. A full
`labels` grows from capacity 1 to 2, 4 and 8, where the rounding changes
nothing, and then from 8 to 17. -/
def gcRuntime (sprintV : Float64 → String) : GoRuntime := ⟨sprintV, growsliceCap⟩

/-! ## What the returned batch reads as

The functions below describe, without a heap, the series the caller reads in
the batch. `convertToTimeseries_eq_expand` proves that `convertToTimeseries`
returns exactly these. -/

/-- Labels every series of a metric starts from: `__name__`, then the labels
of the metric in their order. -/
def baseLabels (metricName : String) (metric : Metric) : List Label :=
  ⟨"__name__", metricName⟩ :: metric.GetLabel.map (fun l => ⟨l.GetName, l.GetValue⟩)

/-- Capacity of the local `labels` after `k` labels were appended to the
one-element literal. -/
def labelsCap (rt : GoRuntime) : Nat → Nat
  | 0 => 1
  | k + 1 => if k + 1 < labelsCap rt k then labelsCap rt k else rt.growCap (k + 2) (labelsCap rt k)

/-- Whether `labels` of a metric with `k` labels has room for one more element,
so that `append(labels, x)` writes into the array of `labels`. -/
def hasRoom (rt : GoRuntime) (k : Nat) : Bool := decide (k + 1 < labelsCap rt k)

/-- Discriminator label and sample value of the two series of a summary. -/
def summaryParts (summary : Summary) : List (Label × Float64) :=
  [(⟨"quantile", "sum"⟩, summary.GetSampleSum),
   (⟨"quantile", "count"⟩, float64OfUint64 summary.GetSampleCount)]

/-- Discriminator label and sample value of the series of a histogram. -/
def histogramParts (rt : GoRuntime) (histogram : Histogram) : List (Label × Float64) :=
  histogram.GetBucket.map
      (fun b => (⟨"le", rt.sprintV b.GetUpperBound⟩, float64OfUint64 b.GetCumulativeCount)) ++
    [(⟨"le", "sum"⟩, histogram.GetSampleSum),
     (⟨"le", "count"⟩, float64OfUint64 histogram.GetSampleCount)]

/-- Series read for the parts of one metric: with room in `labels` every part
was written to the same array slot, which holds the label written last. -/
def compositeSeries (room : Bool) (timestamp : Int) (base : List Label)
    (parts : List (Label × Float64)) : List TimeSeries :=
  parts.map (fun p =>
    ⟨base ++ [if room then (parts.getLast?.map Prod.fst).getD p.1 else p.1], [⟨p.2, timestamp⟩]⟩)

/-- Series read for a metric whose single value is `found`. -/
def scalarSeries (timestamp : Int) (base : List Label) (found : Option Float64) :
    List TimeSeries :=
  match found with
  | some value => [⟨base, [⟨value, timestamp⟩]⟩]
  | none => []

/-- Series read in the batch for one metric. -/
def expandMetric (rt : GoRuntime) (timestamp : Int) (metricName : String)
    (metricType : MetricType) (metric : Metric) : List TimeSeries :=
  let base := baseLabels metricName metric
  let room := hasRoom rt metric.GetLabel.length
  match metricType with
  | .COUNTER => scalarSeries timestamp base (metric.Counter.map Counter.GetValue)
  | .GAUGE => scalarSeries timestamp base (metric.Gauge.map Gauge.GetValue)
  | .UNTYPED => scalarSeries timestamp base (metric.Untyped.map Untyped.GetValue)
  | .SUMMARY =>
    match metric.Summary with
    | some summary => compositeSeries room timestamp base (summaryParts summary)
    | none => []
  | .HISTOGRAM =>
    match metric.Histogram with
    | some histogram => compositeSeries room timestamp base (histogramParts rt histogram)
    | none => []
  | .GAUGE_HISTOGRAM => []

/-- Series read in the batch for one family. -/
def expandFamily (rt : GoRuntime) (timestamp : Int) (mf : MetricFamily) : List TimeSeries :=
  mf.GetMetric.flatMap (expandMetric rt timestamp mf.GetName mf.GetType)

/-- One `append(labels, p.1)` and the series it gives: the common shape of the
summary and histogram branches. -/
def partStep (rt : GoRuntime) (timestamp : Int) (labels : LabelSlice) (st : ConvState)
    (p : Label × Float64) : ConvState :=
  let r := appendLabel rt st.heap labels p.1
  ⟨r.1, st.timeseries ++ [⟨r.2, [⟨p.2, timestamp⟩]⟩]⟩

/-- The slice `s` shows `content` in heap `H`, its array was allocated after
the heap `h0`, which `H` still starts with. -/
structure Owned (h0 H : Heap) (s : LabelSlice) (content : List Label) : Prop where
  ext : ∃ e, H = h0 ++ e
  lo : h0.length ≤ s.array
  hi : s.array < H.length
  read : readLabels H s = content
  len : content.length = s.len
  room : s.len < s.cap → s.cap ≤ (H.getD s.array []).length

/-- The batch of `st` reads as `spec` and every slice in it points into the heap. -/
def Reads (st : ConvState) (spec : List TimeSeries) : Prop :=
  st.timeseries.map (readSeries st.heap) = spec ∧
    ∀ r ∈ st.timeseries, r.Labels.array < st.heap.length

/-! ## HTTP, codecs and the cycle -/

/-- Constants of lines 18-22. -/
def metricsURL : String := "http://localhost:8080/metrics"

def mimirWriteURL : String := "http://localhost:9009/api/v1/push"

/-- An `*http.Response` as the bridge uses it: the status code and the bytes
`io.ReadAll(resp.Body)` delivers. -/
structure Response where
  StatusCode : Int
  Body : String
deriving DecidableEq, Repr

/-- An `*http.Request` as the bridge builds it. -/
structure Request where
  Method : String
  URL : String
  Body : List UInt8
  Header : List (String × String)
deriving DecidableEq, Repr

/-- Method `req.Header.Set(key, value)`: the entry of the key is replaced. -/
def Request.setHeader (req : Request) (key value : String) : Request :=
  ⟨req.Method, req.URL, req.Body, req.Header.filter (fun kv => kv.1 ≠ key) ++ [(key, value)]⟩

/-- Message `prompb.WriteRequest` (the field the bridge sets). -/
structure WriteRequest where
  Timeseries : List TimeSeries
deriving DecidableEq, Repr

/-- The `*http.Client` of a call: what `client.Get` and `client.Do` answer, a
transport error or a response. -/
structure HttpClient where
  Get : String → Except String Response
  Do : Request → Except String Response

/-- A Go `map[string]*MetricFamily`: entries with distinct keys. -/
abbrev FamilyMap := List (String × MetricFamily)

/-- Statement `metrics[key] = mf`. -/
def FamilyMap.set (m : FamilyMap) (key : String) (mf : MetricFamily) : FamilyMap :=
  if m.any (fun kv => kv.1 == key) then
    m.map (fun kv => if kv.1 == key then (key, mf) else kv)
  else m ++ [(key, mf)]

/-- What the libraries and the clock answer during one cycle. -/
structure Env where
  /-- Runtime behaviour of `append` and `fmt.Sprintf`. -/
  rt : GoRuntime
  /-- Results of the successive `decoder.Decode` calls on a body, before the
  call that returns `io.EOF`. -/
  decodeAll : String → List (Except String MetricFamily)
  /-- Order in which `range` visits a map. -/
  rangeOrder : FamilyMap → FamilyMap
  /-- The order is a rearrangement of the entries. -/
  rangeOrder_perm : ∀ m, (rangeOrder m).Perm m
  /-- Value of `time.Now().UnixMilli()` at line 107. -/
  nowMs : Int
  /-- Text of `time.Now().Format("15:04:05")` at line 72. -/
  nowText : String
  /-- Function `proto.Marshal`. -/
  marshal : WriteRequest → Except String (List UInt8)
  /-- Function `snappy.Encode(nil, data)`. -/
  snappyEncode : List UInt8 → List UInt8
  /-- Error of `http.NewRequest` for a method and a URL, `none` when the
  request is built. -/
  newRequestErr : String → String → Option String

/-- Calls to the outside a function of the bridge makes. -/
inductive IOEvent where
  | httpGet (url : String)
  | decode
  | httpDo (req : Request)
deriving DecidableEq, Repr

/-- The three stage functions. -/
inductive Callee where
  | scrapeMetrics
  | convertToTimeseries
  | pushToMimir
deriving DecidableEq, Repr

/-- What happens during one `scrapeAndPush`, in order: a stage function is
called, a stage calls the outside, a line is logged. -/
inductive CycleEvent where
  | call (c : Callee)
  | io (e : IOEvent)
  | log (msg : String)
deriving DecidableEq, Repr

/-- Lines 90-101: the decode loop over the remaining results; the call after
the last result returns `io.EOF` and ends the loop. -/
def decodeLoop : List (Except String MetricFamily) → FamilyMap →
    (Option FamilyMap × Option String) × List IOEvent
  | [], metrics => ((some metrics, none), [IOEvent.decode])
  | Except.error err :: _, _ => ((none, some ("failed to decode: " ++ err)), [IOEvent.decode])
  | Except.ok mf :: rest, metrics =>
    let r := decodeLoop rest (metrics.set mf.GetName mf)
    (r.1, IOEvent.decode :: r.2)

/-- Function `scrapeMetrics`: the returned map (`none` is nil), the returned
error (`none` is nil), and the calls made. -/
def scrapeMetrics (env : Env) (client : HttpClient) (url : String) :
    (Option FamilyMap × Option String) × List IOEvent :=
  match client.Get url with
  | Except.error err => ((none, some ("failed to scrape: " ++ err)), [IOEvent.httpGet url])
  | Except.ok resp =>
    if resp.StatusCode ≠ 200 then
      ((none, some ("unexpected status code: " ++ toString resp.StatusCode)),
        [IOEvent.httpGet url])
    else
      let r := decodeLoop (env.decodeAll resp.Body) []
      (r.1, IOEvent.httpGet url :: r.2)

/-- Lines 215-237 of `pushToMimir`: the request, or the error returned before
anything is sent. -/
def buildRequest (env : Env) (url : String) (timeseries : List TimeSeries) :
    Except String Request :=
  match env.marshal ⟨timeseries⟩ with
  | Except.error err => Except.error ("failed to marshal: " ++ err)
  | Except.ok data =>
    let compressed := env.snappyEncode data
    match env.newRequestErr "POST" url with
    | some err => Except.error ("failed to create request: " ++ err)
    | none =>
      let req : Request := ⟨"POST", url, compressed, []⟩
      let req := req.setHeader "Content-Encoding" "snappy"
      let req := req.setHeader "Content-Type" "application/x-protobuf"
      let req := req.setHeader "X-Prometheus-Remote-Write-Version" "0.1.0"
      Except.ok req

/-- Function `pushToMimir`: the returned error (`none` is nil) and the calls
made. -/
def pushToMimir (env : Env) (client : HttpClient) (url : String)
    (timeseries : List TimeSeries) : Option String × List IOEvent :=
  match buildRequest env url timeseries with
  | Except.error err => (some err, [])
  | Except.ok req =>
    match client.Do req with
    | Except.error err => (some ("failed to send request: " ++ err), [IOEvent.httpDo req])
    | Except.ok resp =>
      if resp.StatusCode < 200 ∨ resp.StatusCode ≥ 300 then
        (some ("unexpected status code " ++ toString resp.StatusCode ++ ": " ++ resp.Body),
          [IOEvent.httpDo req])
      else (none, [IOEvent.httpDo req])

/-- Body of `scrapeAndPush` (lines 46-73) over any three stage functions: each
gives its Go results and the calls it made. The result is the record of the
cycle; the function itself returns nothing. -/
def scrapeAndPushWith (nowText : String)
    (scrape : (Option FamilyMap × Option String) × List IOEvent)
    (convert : Option FamilyMap → (List TimeSeries × Option String) × List IOEvent)
    (push : List TimeSeries → Option String × List IOEvent) : List CycleEvent :=
  let s := scrape
  let tr := CycleEvent.call Callee.scrapeMetrics :: s.2.map CycleEvent.io
  match s.1.2 with
  | some err => tr ++ [CycleEvent.log ("Error scraping metrics: " ++ err)]
  | none =>
    let metrics := s.1.1
    let tr := tr ++ [CycleEvent.log ("Scraped " ++
      toString (metrics.getD []).length ++ " metric families")]
    let c := convert metrics
    let tr := tr ++ CycleEvent.call Callee.convertToTimeseries :: c.2.map CycleEvent.io
    match c.1.2 with
    | some err => tr ++ [CycleEvent.log ("Error converting metrics: " ++ err)]
    | none =>
      let timeseries := c.1.1
      let tr := tr ++ [CycleEvent.log ("Converted to " ++
        toString timeseries.length ++ " timeseries")]
      let p := push timeseries
      let tr := tr ++ CycleEvent.call Callee.pushToMimir :: p.2.map CycleEvent.io
      match p.1 with
      | some err => tr ++ [CycleEvent.log ("Error pushing to Mimir: " ++ err)]
      | none => tr ++ [CycleEvent.log ("✓ Successfully pushed metrics to Mimir at " ++ nowText)]

/-- Call `convertToTimeseries(metrics)` of line 57: the families are visited in
the order `range` gives; a nil map has no entry. -/
def convertStage (env : Env) (metrics : Option FamilyMap) :
    (List TimeSeries × Option String) × List IOEvent :=
  (convertToTimeseries env.rt env.nowMs ((env.rangeOrder (metrics.getD [])).map Prod.snd), [])

/-- Function `scrapeAndPush`: the record of one cycle. -/
def scrapeAndPush (env : Env) (client : HttpClient) : List CycleEvent :=
  scrapeAndPushWith env.nowText (scrapeMetrics env client metricsURL) (convertStage env)
    (pushToMimir env client mimirWriteURL)

/-- Calls of stage functions in a record, in order. -/
def calls (tr : List CycleEvent) : List Callee :=
  tr.filterMap (fun e => match e with
    | CycleEvent.call c => some c
    | _ => none)

/-- Lines 38-43 of `main` for the first call and the ticks received: one
`scrapeAndPush` after the other, each with what the outside answers then. -/
def mainCycles (cycles : List (Env × HttpClient)) : List (List CycleEvent) :=
  cycles.map (fun c => scrapeAndPush c.1 c.2)

/-! ## Vocabulary of the properties and sample inputs -/

/-- The scalar a metric carries for the declared type of its family: the
counter, gauge or untyped value read through `GetValue`; `none` when that
payload is nil or the type is not a scalar one. -/
def scalarPayload (metricType : MetricType) (metric : Metric) : Option Float64 :=
  match metricType with
  | .COUNTER => metric.Counter.map Counter.GetValue
  | .GAUGE => metric.Gauge.map Gauge.GetValue
  | .UNTYPED => metric.Untyped.map Untyped.GetValue
  | _ => none

/-- The payload a metric should carry for the declared type of its family is nil. -/
def payloadAbsent (metricType : MetricType) (metric : Metric) : Prop :=
  match metricType with
  | .COUNTER => metric.Counter = none
  | .GAUGE => metric.Gauge = none
  | .UNTYPED => metric.Untyped = none
  | .SUMMARY => metric.Summary = none
  | .HISTOGRAM => metric.Histogram = none
  | .GAUGE_HISTOGRAM => False

/-- Number of labels of a list that carry a given name. -/
def nameCount (name : String) (labels : List Label) : Nat :=
  (labels.map Label.Name).count name

/-- Text `s` has `sub` as a contiguous part. -/
def Contains (s sub : String) : Prop := ∃ a b : String, s = a ++ sub ++ b

/-- Number of requests sent with `client.Do` among the calls made. -/
def sentRequests (tr : List IOEvent) : Nat :=
  (tr.filter (fun e => match e with
    | IOEvent.httpDo _ => true
    | _ => false)).length

/-- The gc runtime; the float formatter plays no part in the samples below
that use it. -/
def gc : GoRuntime := gcRuntime (fun _ => "")

/-- Label pair with both fields set. -/
def pair (name value : String) : LabelPair := ⟨some name, some value⟩

/-- Family `rpc_duration_seconds` of type SUMMARY: one metric with the two
labels `method="GET"`, `code="200"`, sample sum 2.5 and sample count 7. -/
def summaryFamily : MetricFamily :=
  ⟨some "rpc_duration_seconds", some MetricType.SUMMARY,
    [⟨[pair "method" "GET", pair "code" "200"], none, none,
      some ⟨some 7, some ⟨0x4004000000000000⟩, []⟩, none, none⟩]⟩

/-- Family `http_request_seconds` of type HISTOGRAM: one metric with the two
labels `method="GET"`, `code="200"`, the buckets `0.5` (count 3) and `+Inf`
(count 7), sample sum 2.5 and sample count 7. -/
def histogramFamily : MetricFamily :=
  ⟨some "http_request_seconds", some MetricType.HISTOGRAM,
    [⟨[pair "method" "GET", pair "code" "200"], none, none, none, none,
      some ⟨some 7, some ⟨0x4004000000000000⟩,
        [⟨some 3, some ⟨0x3FE0000000000000⟩⟩, ⟨some 7, some ⟨0x7FF0000000000000⟩⟩]⟩⟩]⟩

/-- Family `app_requests_total` of type COUNTER: one metric `method="GET"`
with value 5. -/
def counterFamily : MetricFamily :=
  ⟨some "app_requests_total", some MetricType.COUNTER,
    [⟨[pair "method" "GET"], none, some ⟨some (float64OfUint64 5)⟩, none, none, none⟩]⟩

/-- Family `up` of type GAUGE: one metric with a label named `__name__` and
value 1. -/
def reservedLabelFamily : MetricFamily :=
  ⟨some "up", some MetricType.GAUGE,
    [⟨[pair "__name__" "x"], some ⟨some (float64OfUint64 1)⟩, none, none, none, none⟩]⟩

/-- The metric of `counterFamily`. -/
def counterMetric : Metric :=
  ⟨[pair "method" "GET"], none, some ⟨some (float64OfUint64 5)⟩, none, none, none⟩

/-- The series `counterFamily` gives at capture time 1000. -/
def counterSeries : TimeSeries :=
  ⟨[⟨"__name__", "app_requests_total"⟩, ⟨"method", "GET"⟩], [⟨float64OfUint64 5, 1000⟩]⟩

/-- Metric `path="/"` of a GAUGE family whose gauge payload is nil. -/
def emptyGaugeMetric : Metric := ⟨[pair "path" "/"], none, none, none, none, none⟩

/-- Metric `path="/a"` with gauge value 1. -/
def gaugeMetric : Metric :=
  ⟨[pair "path" "/a"], some ⟨some (float64OfUint64 1)⟩, none, none, none, none⟩

/-- A cycle environment for the samples: the gc runtime, a decoder that finds
no family, identity codecs, every request built. -/
def sampleEnv : Env where
  rt := gc
  decodeAll := fun _ => []
  rangeOrder := fun m => m
  rangeOrder_perm := fun m => List.Perm.refl m
  nowMs := 1000
  nowText := "12:00:00"
  marshal := fun _ => Except.ok []
  snappyEncode := fun data => data
  newRequestErr := fun _ _ => none

/-- A client whose write endpoint answers 500 with body `out of memory` and
whose scrape endpoint answers 503. -/
def failingClient : HttpClient where
  Get := fun _ => Except.ok ⟨503, "unavailable"⟩
  Do := fun _ => Except.ok ⟨500, "out of memory"⟩

/-- The request `pushToMimir` builds in `sampleEnv` for the write URL and an
empty batch. -/
def sampleRequest : Request :=
  ⟨"POST", mimirWriteURL, [],
    [("Content-Encoding", "snappy"), ("Content-Type", "application/x-protobuf"),
      ("X-Prometheus-Remote-Write-Version", "0.1.0")]⟩

/-- A client whose scrape endpoint answers 200 with an empty body and whose
write endpoint answers 200. -/
def emptyScrapeClient : HttpClient where
  Get := fun _ => Except.ok ⟨200, ""⟩
  Do := fun _ => Except.ok ⟨200, ""⟩

/-- A client whose two endpoints answer 204 with an empty body. -/
def noContentClient : HttpClient where
  Get := fun _ => Except.ok ⟨204, ""⟩
  Do := fun _ => Except.ok ⟨204, ""⟩

/-- A cycle environment whose codecs leave a trace in the bytes: the
serialization is the number of series, the compression puts 255 in front. -/
def taggingEnv : Env where
  rt := gc
  decodeAll := fun _ => []
  rangeOrder := fun m => m
  rangeOrder_perm := fun m => List.Perm.refl m
  nowMs := 1000
  nowText := "12:00:00"
  marshal := fun w => Except.ok [UInt8.ofNat w.Timeseries.length]
  snappyEncode := fun data => 255 :: data
  newRequestErr := fun _ _ => none

/-- The three headers of lines 235-237, in the order they are set. -/
def remoteWriteHeaders : List (String × String) :=
  [("Content-Encoding", "snappy"), ("Content-Type", "application/x-protobuf"),
    ("X-Prometheus-Remote-Write-Version", "0.1.0")]

/-! ## Lists and heaps -/

theorem take_set_self (l : List Label) (n : Nat) (x : Label) :
    (l.set n x).take n = l.take n := by
  induction l generalizing n with
  | nil => simp
  | cons y ys ih =>
    cases n with
    | zero => simp
    | succ m => simp [ih]

theorem take_succ_set (l : List Label) (n : Nat) (x : Label) (h : n < l.length) :
    (l.set n x).take (n + 1) = l.take n ++ [x] := by
  induction l generalizing n with
  | nil => simp at h
  | cons y ys ih =>
    cases n with
    | zero => simp
    | succ m =>
      have hm : m < ys.length := by simpa using h
      simp [ih m hm]

theorem take_append_cons (c : List Label) (x : Label) (rest : List Label) (n : Nat)
    (h : c.length = n) : (c ++ x :: rest).take (n + 1) = c ++ [x] := by
  subst h
  induction c with
  | nil => simp
  | cons y ys ih => simpa using ih

theorem readLabels_append (h e : Heap) (s : LabelSlice) (hs : s.array < h.length) :
    readLabels (h ++ e) s = readLabels h s := by
  unfold readLabels
  rw [List.getD_append _ _ _ _ hs]

theorem readSeries_append (h e : Heap) (r : SeriesRef) (hr : r.Labels.array < h.length) :
    readSeries (h ++ e) r = readSeries h r := by
  unfold readSeries
  rw [readLabels_append h e r.Labels hr]

theorem appendLabel_room (rt : GoRuntime) (H : Heap) (s : LabelSlice) (x : Label)
    (h : s.len < s.cap) :
    appendLabel rt H s x =
      (H.set s.array ((H.getD s.array []).set s.len x), ⟨s.array, s.len + 1, s.cap⟩) := by
  unfold appendLabel
  rw [if_pos h]

theorem appendLabel_full (rt : GoRuntime) (H : Heap) (s : LabelSlice) (x : Label)
    (h : ¬ s.len < s.cap) :
    appendLabel rt H s x =
      (H ++ [(H.getD s.array []).take s.len ++
          x :: List.replicate (rt.growCap (s.len + 1) s.cap - (s.len + 1)) zeroLabel],
        ⟨H.length, s.len + 1, rt.growCap (s.len + 1) s.cap⟩) := by
  unfold appendLabel
  rw [if_neg h]

theorem appendLabel_len (rt : GoRuntime) (H : Heap) (s : LabelSlice) (x : Label) :
    (appendLabel rt H s x).2.len = s.len + 1 := by
  unfold appendLabel
  split <;> rfl

theorem appendLabel_cap (rt : GoRuntime) (H : Heap) (s : LabelSlice) (x : Label) :
    (appendLabel rt H s x).2.cap =
      if s.len < s.cap then s.cap else rt.growCap (s.len + 1) s.cap := by
  unfold appendLabel
  split <;> rfl

theorem getD_set_self (H : Heap) (a : Nat) (v : List Label) (ha : a < H.length) :
    (H.set a v).getD a [] = v := by
  simp [List.getD_eq_getElem?_getD, List.getElem?_set_self ha]

/-- After `append(s, x)` the returned slice shows the old content and `x`. -/
theorem Owned.append {rt : GoRuntime} {h0 H : Heap} {s : LabelSlice} {c : List Label}
    (o : Owned h0 H s c) (x : Label) :
    Owned h0 (appendLabel rt H s x).1 (appendLabel rt H s x).2 (c ++ [x]) := by
  obtain ⟨e, he⟩ := o.ext
  have hread : (H.getD s.array []).take s.len = c := o.read
  by_cases hr : s.len < s.cap
  · rw [appendLabel_room rt H s x hr]
    have hlen : s.len < (H.getD s.array []).length := lt_of_lt_of_le hr (o.room hr)
    refine ⟨?_, o.lo, ?_, ?_, ?_, ?_⟩
    · refine ⟨e.set (s.array - h0.length) ((H.getD s.array []).set s.len x), ?_⟩
      rw [he, List.set_append_right _ _ o.lo]
    · simpa using o.hi
    · show ((H.set s.array _).getD s.array []).take (s.len + 1) = c ++ [x]
      rw [getD_set_self H _ _ o.hi, take_succ_set _ _ _ hlen, hread]
    · simp [o.len]
    · intro _
      show s.cap ≤ ((H.set s.array _).getD s.array []).length
      rw [getD_set_self H _ _ o.hi, List.length_set]
      exact o.room hr
  · rw [appendLabel_full rt H s x hr]
    have hcell : (H ++ [(H.getD s.array []).take s.len ++
          x :: List.replicate (rt.growCap (s.len + 1) s.cap - (s.len + 1)) zeroLabel]).getD
          H.length [] = (H.getD s.array []).take s.len ++
          x :: List.replicate (rt.growCap (s.len + 1) s.cap - (s.len + 1)) zeroLabel := by
      simp [List.getD_eq_getElem?_getD]
    refine ⟨?_, ?_, ?_, ?_, ?_, ?_⟩
    · exact ⟨e ++ [_], by rw [he, List.append_assoc]⟩
    · show h0.length ≤ H.length
      rw [he]; simp
    · show H.length < _
      simp
    · show ((H ++ [_]).getD H.length []).take (s.len + 1) = c ++ [x]
      rw [hcell, hread]
      exact take_append_cons c x _ s.len o.len
    · simp [o.len]
    · intro _
      show rt.growCap (s.len + 1) s.cap ≤ ((H ++ [_]).getD H.length []).length
      rw [hcell, hread]
      simp [o.len]
      omega

/-- After `append(s, x)` the slice `s` itself still shows its content. -/
theorem Owned.keep {rt : GoRuntime} {h0 H : Heap} {s : LabelSlice} {c : List Label}
    (o : Owned h0 H s c) (x : Label) :
    Owned h0 (appendLabel rt H s x).1 s c := by
  obtain ⟨e, he⟩ := o.ext
  have hread : (H.getD s.array []).take s.len = c := o.read
  by_cases hr : s.len < s.cap
  · rw [appendLabel_room rt H s x hr]
    refine ⟨?_, o.lo, ?_, ?_, o.len, ?_⟩
    · refine ⟨e.set (s.array - h0.length) ((H.getD s.array []).set s.len x), ?_⟩
      rw [he, List.set_append_right _ _ o.lo]
    · simpa using o.hi
    · show ((H.set s.array _).getD s.array []).take s.len = c
      rw [getD_set_self H _ _ o.hi, take_set_self, hread]
    · intro h
      show s.cap ≤ ((H.set s.array _).getD s.array []).length
      rw [getD_set_self H _ _ o.hi, List.length_set]
      exact o.room h
  · rw [appendLabel_full rt H s x hr]
    refine ⟨?_, o.lo, ?_, ?_, o.len, ?_⟩
    · exact ⟨e ++ [_], by rw [he, List.append_assoc]⟩
    · show s.array < (H ++ [_]).length
      have := o.hi
      simp; omega
    · show readLabels (H ++ [_]) s = c
      rw [readLabels_append H _ s o.hi]; exact o.read
    · intro h; exact absurd h hr

/-! ## The labels of one metric -/

theorem labelsCap_succ (rt : GoRuntime) (k : Nat) :
    labelsCap rt (k + 1) =
      if k + 1 < labelsCap rt k then labelsCap rt k else rt.growCap (k + 2) (labelsCap rt k) := by
  rw [labelsCap]

theorem foldl_appendLabel_owned (rt : GoRuntime) (h0 : Heap) (xs : List Label) :
    ∀ (H : Heap) (s : LabelSlice) (c : List Label) (k : Nat), Owned h0 H s c →
      s.len = k + 1 → s.cap = labelsCap rt k →
      Owned h0 (xs.foldl (fun hs x => appendLabel rt hs.1 hs.2 x) (H, s)).1
          (xs.foldl (fun hs x => appendLabel rt hs.1 hs.2 x) (H, s)).2 (c ++ xs) ∧
        (xs.foldl (fun hs x => appendLabel rt hs.1 hs.2 x) (H, s)).2.len = k + 1 + xs.length ∧
        (xs.foldl (fun hs x => appendLabel rt hs.1 hs.2 x) (H, s)).2.cap =
          labelsCap rt (k + xs.length) := by
  induction xs with
  | nil =>
    intro H s c k o hl hc
    simpa using ⟨o, hl, hc⟩
  | cons x xs ih =>
    intro H s c k o hl hc
    have hcap : (appendLabel rt H s x).2.cap = labelsCap rt (k + 1) := by
      rw [appendLabel_cap, labelsCap_succ, hl, hc]
    have hlen : (appendLabel rt H s x).2.len = k + 1 + 1 := by
      rw [appendLabel_len, hl]
    have h := ih (appendLabel rt H s x).1 (appendLabel rt H s x).2 (c ++ [x]) (k + 1)
      (o.append x) hlen hcap
    simp only [List.foldl_cons, List.length_cons]
    refine ⟨?_, ?_, ?_⟩
    · have h1 := h.1
      rwa [List.append_assoc, List.singleton_append] at h1
    · rw [h.2.1]; omega
    · rw [h.2.2]; congr 1; omega

theorem buildLabels_owned (rt : GoRuntime) (h : Heap) (metricName : String) (metric : Metric) :
    Owned h (buildLabels rt h metricName metric).1 (buildLabels rt h metricName metric).2
        (baseLabels metricName metric) ∧
      (buildLabels rt h metricName metric).2.len = metric.GetLabel.length + 1 ∧
      (buildLabels rt h metricName metric).2.cap = labelsCap rt metric.GetLabel.length := by
  have o : Owned h (h ++ [[(⟨"__name__", metricName⟩ : Label)]]) ⟨h.length, 1, 1⟩
      [⟨"__name__", metricName⟩] := by
    refine ⟨⟨_, rfl⟩, le_refl _, by simp, ?_, rfl, ?_⟩
    · simp [readLabels, List.getD_eq_getElem?_getD]
    · intro hh; exact absurd hh (lt_irrefl _)
  have key := foldl_appendLabel_owned rt h
    (metric.GetLabel.map (fun l => (⟨l.GetName, l.GetValue⟩ : Label))) _ _ _ 0 o rfl rfl
  rw [List.foldl_map] at key
  simpa [buildLabels, baseLabels, Nat.add_comm] using key

/-! ## The series of one summary or histogram -/

theorem partLoop_room (rt : GoRuntime) (timestamp : Int) (h0 : Heap) (s : LabelSlice)
    (base : List Label) (hr : s.len < s.cap) (parts : List (Label × Float64)) :
    ∀ (H : Heap) (out : List SeriesRef), Owned h0 H s base →
      ∃ Hf, parts.foldl (partStep rt timestamp s) ⟨H, out⟩ =
          ⟨Hf, out ++ parts.map (fun p => ⟨⟨s.array, s.len + 1, s.cap⟩, [⟨p.2, timestamp⟩]⟩)⟩ ∧
        Owned h0 Hf s base ∧
        ∀ last, parts.getLast? = some last →
          readLabels Hf ⟨s.array, s.len + 1, s.cap⟩ = base ++ [last.1] := by
  induction parts with
  | nil =>
    intro H out o
    exact ⟨H, by simp, o, by simp⟩
  | cons p ps ih =>
    intro H out o
    have hslice : (appendLabel rt H s p.1).2 = ⟨s.array, s.len + 1, s.cap⟩ := by
      rw [appendLabel_room rt H s p.1 hr]
    obtain ⟨Hf, hfold, hown, hlast⟩ := ih (appendLabel rt H s p.1).1
      (out ++ [⟨⟨s.array, s.len + 1, s.cap⟩, [⟨p.2, timestamp⟩]⟩]) (o.keep p.1)
    refine ⟨Hf, ?_, hown, ?_⟩
    · simp only [List.foldl_cons, List.map_cons]
      rw [show partStep rt timestamp s ⟨H, out⟩ p =
        ⟨(appendLabel rt H s p.1).1,
          out ++ [⟨⟨s.array, s.len + 1, s.cap⟩, [⟨p.2, timestamp⟩]⟩]⟩ by
          simp only [partStep, hslice]]
      rw [hfold, List.append_assoc, List.singleton_append]
    · intro last hl
      cases ps with
      | nil =>
        simp only [List.getLast?_singleton, Option.some.injEq] at hl
        subst hl
        simp only [List.foldl_nil, ConvState.mk.injEq] at hfold
        rw [← hfold.1, ← hslice]
        exact (o.append p.1).read
      | cons q qs =>
        rw [List.getLast?_cons_cons] at hl
        exact hlast last hl

theorem partLoop_full (rt : GoRuntime) (timestamp : Int) (h0 : Heap) (s : LabelSlice)
    (base : List Label) (hr : ¬ s.len < s.cap) (parts : List (Label × Float64)) :
    ∀ (H : Heap) (out : List SeriesRef), Owned h0 H s base →
      ∃ Hf news, parts.foldl (partStep rt timestamp s) ⟨H, out⟩ = ⟨Hf, out ++ news⟩ ∧
        Owned h0 Hf s base ∧ (∃ e, Hf = H ++ e) ∧
        news.map (readSeries Hf) =
          parts.map (fun p => ⟨base ++ [p.1], [⟨p.2, timestamp⟩]⟩) ∧
        ∀ r ∈ news, r.Labels.array < Hf.length := by
  induction parts with
  | nil =>
    intro H out o
    exact ⟨H, [], by simp, o, ⟨[], by simp⟩, by simp, by simp⟩
  | cons p ps ih =>
    intro H out o
    have hheap : (appendLabel rt H s p.1).1 = H ++ [(H.getD s.array []).take s.len ++
          p.1 :: List.replicate (rt.growCap (s.len + 1) s.cap - (s.len + 1)) zeroLabel] := by
      rw [appendLabel_full rt H s p.1 hr]
    have harr : (appendLabel rt H s p.1).2.array = H.length := by
      rw [appendLabel_full rt H s p.1 hr]
    obtain ⟨Hf, news, hfold, hown, ⟨e, he⟩, hmap, hin⟩ := ih (appendLabel rt H s p.1).1
      (out ++ [⟨(appendLabel rt H s p.1).2, [⟨p.2, timestamp⟩]⟩]) (o.keep p.1)
    have hlt : (appendLabel rt H s p.1).2.array < (appendLabel rt H s p.1).1.length := by
      rw [harr, hheap]; simp
    refine ⟨Hf, ⟨(appendLabel rt H s p.1).2, [⟨p.2, timestamp⟩]⟩ :: news, ?_, hown, ?_, ?_, ?_⟩
    · simp only [List.foldl_cons]
      rw [show partStep rt timestamp s ⟨H, out⟩ p =
        ⟨(appendLabel rt H s p.1).1,
          out ++ [⟨(appendLabel rt H s p.1).2, [⟨p.2, timestamp⟩]⟩]⟩ from rfl]
      rw [hfold, List.append_assoc, List.singleton_append]
    · exact ⟨_ :: e, by rw [he, hheap, List.append_assoc, List.singleton_append]⟩
    · simp only [List.map_cons, hmap, List.cons.injEq, and_true]
      rw [he, readSeries_append _ _ _ hlt]
      simp only [readSeries, TimeSeries.mk.injEq, and_true]
      exact (o.append p.1).read
    · intro r hrmem
      rcases List.mem_cons.1 hrmem with h | h
      · subst h
        rw [he, List.length_append]
        exact Nat.lt_add_right _ hlt
      · exact hin r h

theorem partLoop_reads (rt : GoRuntime) (timestamp : Int) (h0 : Heap) (s : LabelSlice)
    (base : List Label) (parts : List (Label × Float64)) (H : Heap) (out : List SeriesRef)
    (o : Owned h0 H s base) :
    ∃ e news, parts.foldl (partStep rt timestamp s) ⟨H, out⟩ = ⟨h0 ++ e, out ++ news⟩ ∧
      news.map (readSeries (h0 ++ e)) =
        compositeSeries (decide (s.len < s.cap)) timestamp base parts ∧
      ∀ r ∈ news, r.Labels.array < (h0 ++ e).length := by
  by_cases hr : s.len < s.cap
  · obtain ⟨Hf, hfold, hown, hlast⟩ := partLoop_room rt timestamp h0 s base hr parts H out o
    obtain ⟨e, he⟩ := hown.ext
    subst he
    refine ⟨e, _, hfold, ?_, ?_⟩
    · simp only [compositeSeries, hr, decide_True, if_true, List.map_map]
      apply List.map_congr_left
      intro p hp
      cases hl : parts.getLast? with
      | none =>
        rw [List.getLast?_eq_none_iff] at hl
        subst hl
        simp at hp
      | some last =>
        simp only [Function.comp, readSeries, Option.map_some', Option.getD_some]
        rw [hlast last hl]
    · intro r hrmem
      obtain ⟨p, _, hp⟩ := List.mem_map.1 hrmem
      subst hp
      exact hown.hi
  · obtain ⟨Hf, news, hfold, hown, _, hmap, hin⟩ :=
      partLoop_full rt timestamp h0 s base hr parts H out o
    obtain ⟨e, he⟩ := hown.ext
    subst he
    refine ⟨e, news, hfold, ?_, hin⟩
    rw [hmap]
    simp [compositeSeries, hr]

/-! ## One metric, one family, the whole batch -/

theorem scalar_reads (rt : GoRuntime) (timestamp : Int) (metricName : String)
    (st : ConvState) (metric : Metric) (found : Option Float64) :
    ∃ e news,
      emitFound timestamp (buildLabels rt st.heap metricName metric).1
          (buildLabels rt st.heap metricName metric).2 st.timeseries found =
        ⟨st.heap ++ e, st.timeseries ++ news⟩ ∧
      news.map (readSeries (st.heap ++ e)) =
        scalarSeries timestamp (baseLabels metricName metric) found ∧
      ∀ r ∈ news, r.Labels.array < (st.heap ++ e).length := by
  obtain ⟨o, _, _⟩ := buildLabels_owned rt st.heap metricName metric
  obtain ⟨e, he⟩ := o.ext
  cases found with
  | none => exact ⟨e, [], by simp [emitFound, he], by simp [scalarSeries], by simp⟩
  | some value =>
    refine ⟨e, [⟨(buildLabels rt st.heap metricName metric).2, [⟨value, timestamp⟩]⟩], ?_, ?_, ?_⟩
    · simp [emitFound, he]
    · simp only [List.map_cons, List.map_nil, scalarSeries, readSeries, ← he, o.read]
    · intro r hr
      rw [List.mem_singleton] at hr
      subst hr
      rw [← he]
      exact o.hi

theorem composite_reads (rt : GoRuntime) (timestamp : Int) (metricName : String)
    (st : ConvState) (metric : Metric) (parts : List (Label × Float64)) :
    ∃ e news,
      parts.foldl (partStep rt timestamp (buildLabels rt st.heap metricName metric).2)
          ⟨(buildLabels rt st.heap metricName metric).1, st.timeseries⟩ =
        ⟨st.heap ++ e, st.timeseries ++ news⟩ ∧
      news.map (readSeries (st.heap ++ e)) =
        compositeSeries (hasRoom rt metric.GetLabel.length) timestamp
          (baseLabels metricName metric) parts ∧
      ∀ r ∈ news, r.Labels.array < (st.heap ++ e).length := by
  obtain ⟨o, hl, hc⟩ := buildLabels_owned rt st.heap metricName metric
  have h := partLoop_reads rt timestamp st.heap _ _ parts _ st.timeseries o
  rw [hl, hc] at h
  exact h

theorem summary_eq_foldl (rt : GoRuntime) (timestamp : Int) (metricName : String)
    (st : ConvState) (metric : Metric) (summary : Summary)
    (hs : metric.Summary = some summary) :
    convertMetric rt timestamp metricName MetricType.SUMMARY st metric =
      (summaryParts summary).foldl
        (partStep rt timestamp (buildLabels rt st.heap metricName metric).2)
        ⟨(buildLabels rt st.heap metricName metric).1, st.timeseries⟩ := by
  simp only [convertMetric, hs, summaryParts, List.foldl_cons, List.foldl_nil, partStep]

theorem bucketStep_eq_partStep (rt : GoRuntime) (timestamp : Int) (labels : LabelSlice)
    (buckets : List Bucket) (st : ConvState) :
    buckets.foldl (bucketStep rt timestamp labels) st =
      (buckets.map (fun b => ((⟨"le", rt.sprintV b.GetUpperBound⟩ : Label),
          float64OfUint64 b.GetCumulativeCount))).foldl (partStep rt timestamp labels) st := by
  rw [List.foldl_map]
  rfl

theorem histogram_eq_foldl (rt : GoRuntime) (timestamp : Int) (metricName : String)
    (st : ConvState) (metric : Metric) (histogram : Histogram)
    (hs : metric.Histogram = some histogram) :
    convertMetric rt timestamp metricName MetricType.HISTOGRAM st metric =
      (histogramParts rt histogram).foldl
        (partStep rt timestamp (buildLabels rt st.heap metricName metric).2)
        ⟨(buildLabels rt st.heap metricName metric).1, st.timeseries⟩ := by
  simp only [convertMetric, hs, histogramParts, List.foldl_append, List.foldl_cons,
    List.foldl_nil, partStep, ← bucketStep_eq_partStep]

theorem convertMetric_reads (rt : GoRuntime) (timestamp : Int) (metricName : String)
    (metricType : MetricType) (st : ConvState) (metric : Metric) :
    ∃ e news, convertMetric rt timestamp metricName metricType st metric =
        ⟨st.heap ++ e, st.timeseries ++ news⟩ ∧
      news.map (readSeries (st.heap ++ e)) =
        expandMetric rt timestamp metricName metricType metric ∧
      ∀ r ∈ news, r.Labels.array < (st.heap ++ e).length := by
  cases metricType with
  | COUNTER => exact scalar_reads rt timestamp metricName st metric _
  | GAUGE => exact scalar_reads rt timestamp metricName st metric _
  | UNTYPED => exact scalar_reads rt timestamp metricName st metric _
  | GAUGE_HISTOGRAM => exact scalar_reads rt timestamp metricName st metric none
  | SUMMARY =>
    cases hs : metric.Summary with
    | none =>
      have h := scalar_reads rt timestamp metricName st metric none
      simpa only [convertMetric, expandMetric, hs, scalarSeries] using h
    | some summary =>
      rw [summary_eq_foldl rt timestamp metricName st metric summary hs]
      simp only [expandMetric, hs]
      exact composite_reads rt timestamp metricName st metric _
  | HISTOGRAM =>
    cases hs : metric.Histogram with
    | none =>
      have h := scalar_reads rt timestamp metricName st metric none
      simpa only [convertMetric, expandMetric, hs, scalarSeries] using h
    | some histogram =>
      rw [histogram_eq_foldl rt timestamp metricName st metric histogram hs]
      simp only [expandMetric, hs]
      exact composite_reads rt timestamp metricName st metric _

theorem Reads.step (rt : GoRuntime) (timestamp : Int) (metricName : String)
    (metricType : MetricType) {st : ConvState} {spec : List TimeSeries} (h : Reads st spec)
    (metric : Metric) :
    Reads (convertMetric rt timestamp metricName metricType st metric)
      (spec ++ expandMetric rt timestamp metricName metricType metric) := by
  obtain ⟨e, news, heq, hmap, hin⟩ :=
    convertMetric_reads rt timestamp metricName metricType st metric
  rw [heq]
  refine ⟨?_, ?_⟩
  · show (st.timeseries ++ news).map (readSeries (st.heap ++ e)) = _
    rw [List.map_append, hmap, ← h.1]
    congr 1
    apply List.map_congr_left
    intro r hr
    exact readSeries_append _ _ _ (h.2 r hr)
  · intro r hr
    show r.Labels.array < (st.heap ++ e).length
    rcases List.mem_append.1 hr with h1 | h1
    · rw [List.length_append]
      exact Nat.lt_add_right _ (h.2 r h1)
    · exact hin r h1

theorem Reads.metrics (rt : GoRuntime) (timestamp : Int) (metricName : String)
    (metricType : MetricType) (metrics : List Metric) :
    ∀ {st : ConvState} {spec : List TimeSeries}, Reads st spec →
      Reads (metrics.foldl (convertMetric rt timestamp metricName metricType) st)
        (spec ++ metrics.flatMap (expandMetric rt timestamp metricName metricType)) := by
  induction metrics with
  | nil => intro st spec h; simpa using h
  | cons m ms ih =>
    intro st spec h
    have h1 := ih (Reads.step rt timestamp metricName metricType h m)
    simpa [List.flatMap_cons, List.append_assoc] using h1

theorem Reads.families (rt : GoRuntime) (timestamp : Int) (families : List MetricFamily) :
    ∀ {st : ConvState} {spec : List TimeSeries}, Reads st spec →
      Reads (families.foldl (convertFamily rt timestamp) st)
        (spec ++ families.flatMap (expandFamily rt timestamp)) := by
  induction families with
  | nil => intro st spec h; simpa using h
  | cons mf mfs ih =>
    intro st spec h
    have h0 : Reads (convertFamily rt timestamp st mf) (spec ++ expandFamily rt timestamp mf) :=
      Reads.metrics rt timestamp mf.GetName mf.GetType mf.GetMetric h
    have h1 := ih h0
    simpa [List.flatMap_cons, List.append_assoc] using h1

/-- The batch `convertToTimeseries` returns reads as the concatenation, family
by family and metric by metric, of `expandMetric`; the error is nil. -/
theorem convertToTimeseries_eq_expand (rt : GoRuntime) (timestamp : Int)
    (metricFamilies : List MetricFamily) :
    convertToTimeseries rt timestamp metricFamilies =
      (metricFamilies.flatMap (expandFamily rt timestamp), none) := by
  have h0 : Reads ⟨[], []⟩ [] := ⟨rfl, by simp⟩
  have h := Reads.families rt timestamp metricFamilies h0
  simp only [convertToTimeseries, convertToTimeseriesMem, Prod.mk.injEq, and_true]
  simpa using h.1

/-! ## Shape of the series of one metric -/

theorem expandMetric_scalar (rt : GoRuntime) (timestamp : Int) (metricName : String)
    (metricType : MetricType) (metric : Metric)
    (ht : metricType = MetricType.COUNTER ∨ metricType = MetricType.GAUGE ∨
      metricType = MetricType.UNTYPED) :
    expandMetric rt timestamp metricName metricType metric =
      scalarSeries timestamp (baseLabels metricName metric) (scalarPayload metricType metric) := by
  rcases ht with h | h | h <;> subst h <;> rfl

theorem expandMetric_absent (rt : GoRuntime) (timestamp : Int) (metricName : String)
    (metricType : MetricType) (metric : Metric) (h : payloadAbsent metricType metric) :
    expandMetric rt timestamp metricName metricType metric = [] := by
  cases metricType <;> simp only [payloadAbsent] at h <;>
    simp [expandMetric, h, scalarSeries]

theorem compositeSeries_shape (room : Bool) (timestamp : Int) (base : List Label)
    (parts : List (Label × Float64)) (hparts : ∀ p ∈ parts, p.1.Name ≠ "__name__")
    (s : TimeSeries) (hs : s ∈ compositeSeries room timestamp base parts) :
    ∃ tail v, s = ⟨base ++ tail, [⟨v, timestamp⟩]⟩ ∧ ∀ l ∈ tail, l.Name ≠ "__name__" := by
  obtain ⟨p, hp, rfl⟩ := List.mem_map.1 hs
  refine ⟨[_], p.2, rfl, ?_⟩
  intro l hl
  rw [List.mem_singleton] at hl
  subst hl
  cases room with
  | false => simpa using hparts p hp
  | true =>
    cases hlast : parts.getLast? with
    | none => simpa [hlast] using hparts p hp
    | some last =>
      simpa [hlast] using hparts last (List.mem_of_getLast?_eq_some hlast)

theorem summaryParts_names (summary : Summary) :
    ∀ p ∈ summaryParts summary, p.1.Name ≠ "__name__" := by
  intro p hp
  simp only [summaryParts, List.mem_cons, List.mem_singleton, List.not_mem_nil, or_false] at hp
  rcases hp with h | h <;> subst h <;> exact (by decide : ("quantile" : String) ≠ "__name__")

theorem histogramParts_names (rt : GoRuntime) (histogram : Histogram) :
    ∀ p ∈ histogramParts rt histogram, p.1.Name ≠ "__name__" := by
  intro p hp
  simp only [histogramParts, List.mem_append, List.mem_map, List.mem_cons, List.mem_singleton,
    List.not_mem_nil, or_false] at hp
  rcases hp with ⟨b, _, h⟩ | h | h <;> subst h <;> exact (by decide : ("le" : String) ≠ "__name__")

/-- Every series read for a metric has the base labels of the metric, then at
most a discriminator that is not named `__name__`, and one sample stamped with
the capture time. -/
theorem expandMetric_shape (rt : GoRuntime) (timestamp : Int) (metricName : String)
    (metricType : MetricType) (metric : Metric) (s : TimeSeries)
    (hs : s ∈ expandMetric rt timestamp metricName metricType metric) :
    ∃ tail v, s = ⟨baseLabels metricName metric ++ tail, [⟨v, timestamp⟩]⟩ ∧
      ∀ l ∈ tail, l.Name ≠ "__name__" := by
  have scalar : ∀ found, s ∈ scalarSeries timestamp (baseLabels metricName metric) found →
      ∃ tail v, s = ⟨baseLabels metricName metric ++ tail, [⟨v, timestamp⟩]⟩ ∧
        ∀ l ∈ tail, l.Name ≠ "__name__" := by
    intro found h
    cases found with
    | none => simp [scalarSeries] at h
    | some value =>
      simp only [scalarSeries, List.mem_singleton] at h
      exact ⟨[], value, by simpa using h, by simp⟩
  cases metricType with
  | COUNTER => exact scalar _ hs
  | GAUGE => exact scalar _ hs
  | UNTYPED => exact scalar _ hs
  | GAUGE_HISTOGRAM => simp [expandMetric] at hs
  | SUMMARY =>
    cases h : metric.Summary with
    | none => simp [expandMetric, h] at hs
    | some summary =>
      simp only [expandMetric, h] at hs
      exact compositeSeries_shape _ _ _ _ (summaryParts_names summary) s hs
  | HISTOGRAM =>
    cases h : metric.Histogram with
    | none => simp [expandMetric, h] at hs
    | some histogram =>
      simp only [expandMetric, h] at hs
      exact compositeSeries_shape _ _ _ _ (histogramParts_names rt histogram) s hs

theorem mem_batch (rt : GoRuntime) (timestamp : Int) (metricFamilies : List MetricFamily)
    (s : TimeSeries) (hs : s ∈ (convertToTimeseries rt timestamp metricFamilies).1) :
    ∃ mf ∈ metricFamilies, ∃ metric ∈ mf.GetMetric,
      s ∈ expandMetric rt timestamp mf.GetName mf.GetType metric := by
  rw [convertToTimeseries_eq_expand] at hs
  obtain ⟨mf, hmf, h⟩ := List.mem_flatMap.1 hs
  obtain ⟨m, hm, h1⟩ := List.mem_flatMap.1 h
  exact ⟨mf, hmf, m, hm, h1⟩

theorem batch_append (rt : GoRuntime) (timestamp : Int) (pre post : List MetricFamily) :
    (convertToTimeseries rt timestamp (pre ++ post)).1 =
      (convertToTimeseries rt timestamp pre).1 ++ (convertToTimeseries rt timestamp post).1 := by
  simp [convertToTimeseries_eq_expand]

theorem nameCount_tail (base tail : List Label) (h : ∀ l ∈ tail, l.Name ≠ "__name__") :
    nameCount "__name__" (base ++ tail) = nameCount "__name__" base := by
  have : nameCount "__name__" tail = 0 := by
    unfold nameCount
    rw [List.count_eq_zero]
    intro hmem
    obtain ⟨l, hl, hn⟩ := List.mem_map.1 hmem
    exact h l hl hn
  unfold nameCount at this ⊢
  rw [List.map_append, List.count_append, this, Nat.add_zero]

/-! ## Properties of convertToTimeseries -/

/-- The capacity of `labels` under the gc runtime does not depend on the float
formatter. -/
theorem labelsCap_gcRuntime (sprintV : Float64 → String) (k : Nat) :
    labelsCap (gcRuntime sprintV) k = labelsCap gc k := by
  induction k with
  | zero => rfl
  | succ k ih =>
    rw [labelsCap_succ, labelsCap_succ, ih]
    rfl

/-- Under the gc runtime, `labels` of a metric with two labels has length 3 and
capacity 4: there is room for one more element. -/
theorem hasRoom_gcRuntime_two (sprintV : Float64 → String) :
    hasRoom (gcRuntime sprintV) 2 = true := by
  unfold hasRoom
  rw [labelsCap_gcRuntime]
  decide

/-- C1 (the code fails the claim). Under the gc runtime, for the SUMMARY metric
with two labels the series emitted first reads `quantile=count` in the returned
batch, not its own `quantile=sum`, and for the HISTOGRAM metric with two labels
the series of the first bucket reads `le=count`: the `append` for the later
sibling wrote into the array the earlier series shares. -/
theorem sibling_append_overwrites_earlier_labels (sprintV : Float64 → String) :
    ((convertToTimeseries (gcRuntime sprintV) 1000 [summaryFamily]).1.head?.map
        TimeSeries.Labels =
      some [⟨"__name__", "rpc_duration_seconds"⟩, ⟨"method", "GET"⟩, ⟨"code", "200"⟩,
        ⟨"quantile", "count"⟩]) ∧
    ((convertToTimeseries (gcRuntime sprintV) 1000 [histogramFamily]).1.head?.map
        TimeSeries.Labels =
      some [⟨"__name__", "http_request_seconds"⟩, ⟨"method", "GET"⟩, ⟨"code", "200"⟩,
        ⟨"le", "count"⟩]) := by
  have hs : expandFamily (gcRuntime sprintV) 1000 summaryFamily =
      compositeSeries (hasRoom (gcRuntime sprintV) 2) 1000
        [⟨"__name__", "rpc_duration_seconds"⟩, ⟨"method", "GET"⟩, ⟨"code", "200"⟩]
        [(⟨"quantile", "sum"⟩, ⟨0x4004000000000000⟩),
          (⟨"quantile", "count"⟩, float64OfUint64 7)] := rfl
  have hh : expandFamily (gcRuntime sprintV) 1000 histogramFamily =
      compositeSeries (hasRoom (gcRuntime sprintV) 2) 1000
        [⟨"__name__", "http_request_seconds"⟩, ⟨"method", "GET"⟩, ⟨"code", "200"⟩]
        [(⟨"le", sprintV ⟨0x3FE0000000000000⟩⟩, float64OfUint64 3),
          (⟨"le", sprintV ⟨0x7FF0000000000000⟩⟩, float64OfUint64 7),
          (⟨"le", "sum"⟩, ⟨0x4004000000000000⟩), (⟨"le", "count"⟩, float64OfUint64 7)] := rfl
  constructor
  · rw [convertToTimeseries_eq_expand, List.flatMap_cons, List.flatMap_nil, List.append_nil, hs,
      hasRoom_gcRuntime_two]
    rfl
  · rw [convertToTimeseries_eq_expand, List.flatMap_cons, List.flatMap_nil, List.append_nil, hh,
      hasRoom_gcRuntime_two]
    rfl

/-- C2 (the code fails the claim). Under the gc runtime, the HISTOGRAM metric
with two labels and the buckets `0.5` and `+Inf` gives four series (two
buckets, sum, count) with the right sample values, but every one of them reads
`le=count` as its last label, whatever the float formatter. -/
theorem histogram_two_labels_all_le_count (sprintV : Float64 → String) :
    convertToTimeseries (gcRuntime sprintV) 1000 [histogramFamily] =
      ([⟨[⟨"__name__", "http_request_seconds"⟩, ⟨"method", "GET"⟩, ⟨"code", "200"⟩,
            ⟨"le", "count"⟩], [⟨float64OfUint64 3, 1000⟩]⟩,
        ⟨[⟨"__name__", "http_request_seconds"⟩, ⟨"method", "GET"⟩, ⟨"code", "200"⟩,
            ⟨"le", "count"⟩], [⟨float64OfUint64 7, 1000⟩]⟩,
        ⟨[⟨"__name__", "http_request_seconds"⟩, ⟨"method", "GET"⟩, ⟨"code", "200"⟩,
            ⟨"le", "count"⟩], [⟨⟨0x4004000000000000⟩, 1000⟩]⟩,
        ⟨[⟨"__name__", "http_request_seconds"⟩, ⟨"method", "GET"⟩, ⟨"code", "200"⟩,
            ⟨"le", "count"⟩], [⟨float64OfUint64 7, 1000⟩]⟩], none) := by
  have hh : expandFamily (gcRuntime sprintV) 1000 histogramFamily =
      compositeSeries (hasRoom (gcRuntime sprintV) 2) 1000
        [⟨"__name__", "http_request_seconds"⟩, ⟨"method", "GET"⟩, ⟨"code", "200"⟩]
        [(⟨"le", sprintV ⟨0x3FE0000000000000⟩⟩, float64OfUint64 3),
          (⟨"le", sprintV ⟨0x7FF0000000000000⟩⟩, float64OfUint64 7),
          (⟨"le", "sum"⟩, ⟨0x4004000000000000⟩), (⟨"le", "count"⟩, float64OfUint64 7)] := rfl
  rw [convertToTimeseries_eq_expand, List.flatMap_cons, List.flatMap_nil, List.append_nil, hh,
    hasRoom_gcRuntime_two]
  rfl

/-- C3 (the code fails the claim). Under the gc runtime, the SUMMARY metric with
two labels gives two series carrying the sample sum and the sample count, but
both read `quantile=count`: no series reads `quantile=sum`. -/
theorem summary_two_labels_both_quantile_count :
    convertToTimeseries gc 1000 [summaryFamily] =
      ([⟨[⟨"__name__", "rpc_duration_seconds"⟩, ⟨"method", "GET"⟩, ⟨"code", "200"⟩,
            ⟨"quantile", "count"⟩], [⟨⟨0x4004000000000000⟩, 1000⟩]⟩,
        ⟨[⟨"__name__", "rpc_duration_seconds"⟩, ⟨"method", "GET"⟩, ⟨"code", "200"⟩,
            ⟨"quantile", "count"⟩], [⟨float64OfUint64 7, 1000⟩]⟩], none) :=
  rfl

/-- C4. For a family of type COUNTER, GAUGE or UNTYPED whose metrics all carry
the scalar of the declared type (`value metric`), the batch holds, between the
series of the families visited before and after, exactly one series per metric
in metric order: labels `__name__=<family name>` then the labels of the metric
in their order, and one sample with the scalar of the metric and the capture
time. The error is nil. -/
theorem scalar_family_one_series_per_metric (rt : GoRuntime) (timestamp : Int)
    (pre post : List MetricFamily) (mf : MetricFamily) (value : Metric → Float64)
    (ht : mf.GetType = MetricType.COUNTER ∨ mf.GetType = MetricType.GAUGE ∨
      mf.GetType = MetricType.UNTYPED)
    (hp : ∀ metric ∈ mf.GetMetric, scalarPayload mf.GetType metric = some (value metric)) :
    convertToTimeseries rt timestamp (pre ++ mf :: post) =
      ((convertToTimeseries rt timestamp pre).1 ++
        mf.GetMetric.map (fun metric =>
          ⟨⟨"__name__", mf.GetName⟩ ::
              metric.GetLabel.map (fun l => ⟨l.GetName, l.GetValue⟩),
            [⟨value metric, timestamp⟩]⟩) ++
        (convertToTimeseries rt timestamp post).1, none) := by
  have hfam : expandFamily rt timestamp mf =
      mf.GetMetric.map (fun metric =>
        ⟨⟨"__name__", mf.GetName⟩ :: metric.GetLabel.map (fun l => ⟨l.GetName, l.GetValue⟩),
          [⟨value metric, timestamp⟩]⟩) := by
    unfold expandFamily
    have hall : ∀ ms : List Metric, (∀ m ∈ ms, scalarPayload mf.GetType m = some (value m)) →
        ms.flatMap (expandMetric rt timestamp mf.GetName mf.GetType) =
          ms.map (fun metric =>
            ⟨⟨"__name__", mf.GetName⟩ ::
                metric.GetLabel.map (fun l => ⟨l.GetName, l.GetValue⟩),
              [⟨value metric, timestamp⟩]⟩) := by
      intro ms
      induction ms with
      | nil => intro _; rfl
      | cons m ms ih =>
        intro h
        rw [List.flatMap_cons, List.map_cons, ih (fun x hx => h x (List.mem_cons_of_mem _ hx)),
          expandMetric_scalar rt timestamp mf.GetName mf.GetType m ht,
          h m (List.mem_cons_self _ _)]
        rfl
    exact hall mf.GetMetric hp
  simp only [convertToTimeseries_eq_expand, List.flatMap_append, List.flatMap_cons, hfam,
    List.append_assoc]

/-- C4, the scenario of the specification: `app_requests_total{method="GET"} 5`
of type COUNTER gives the one series `[__name__=app_requests_total, method=GET]`
with sample value 5. -/
theorem scalar_family_one_series_per_metric_witness :
    (counterFamily.GetType = MetricType.COUNTER ∨ counterFamily.GetType = MetricType.GAUGE ∨
      counterFamily.GetType = MetricType.UNTYPED) ∧
    (∀ metric ∈ counterFamily.GetMetric,
      scalarPayload counterFamily.GetType metric = some (float64OfUint64 5)) ∧
    convertToTimeseries gc 1000 [counterFamily] =
      ([⟨[⟨"__name__", "app_requests_total"⟩, ⟨"method", "GET"⟩],
          [⟨float64OfUint64 5, 1000⟩]⟩], none) :=
  ⟨Or.inl rfl, by decide,
    scalar_family_one_series_per_metric gc 1000 [] [] counterFamily
      (fun _ => float64OfUint64 5) (Or.inl rfl) (by decide)⟩

/-- C5 (the claim as stated fails). A GAUGE metric that itself has a label named
`__name__` gives a series in which the name `__name__` occurs twice. -/
theorem reserved_label_name_occurs_twice :
    ∃ s ∈ (convertToTimeseries gc 1000 [reservedLabelFamily]).1,
      nameCount "__name__" s.Labels = 2 :=
  ⟨⟨[⟨"__name__", "up"⟩, ⟨"__name__", "x"⟩], [⟨float64OfUint64 1, 1000⟩]⟩, by decide, by decide⟩

/-- The batch a metric gives as the only metric of its family, the family being
the only one of the map, reads as the series of that metric. -/
theorem metricBatch_eq_expandMetric (rt : GoRuntime) (timestamp : Int) (mf : MetricFamily)
    (metric : Metric) :
    (convertToTimeseries rt timestamp [⟨mf.Name, mf.Type_, [metric]⟩]).1 =
      expandMetric rt timestamp mf.GetName mf.GetType metric := by
  rw [convertToTimeseries_eq_expand]
  simp only [List.flatMap_cons, List.flatMap_nil, List.append_nil, expandFamily,
    MetricFamily.GetMetric]
  rfl

/-- C5 (amended). The returned batch is the concatenation, family by family in
visiting order and metric by metric in metric order, of the series each metric
gives when converted alone under the name and type of its family. Every series
a metric of a family gives has a label list that is not empty, whose first
label is `__name__` with the name of that family, and in which the name
`__name__` occurs once plus once for each label of that metric named
`__name__`: exactly once when the metric has no such label. So every series of
the batch has these properties for its own family and metric. -/
theorem name_label_first_and_counted (rt : GoRuntime) (timestamp : Int)
    (metricFamilies : List MetricFamily) :
    (convertToTimeseries rt timestamp metricFamilies).1 =
      metricFamilies.flatMap (fun mf => mf.GetMetric.flatMap (fun metric =>
        (convertToTimeseries rt timestamp [⟨mf.Name, mf.Type_, [metric]⟩]).1)) ∧
    (∀ (mf : MetricFamily) (metric : Metric) (s : TimeSeries),
      s ∈ (convertToTimeseries rt timestamp [⟨mf.Name, mf.Type_, [metric]⟩]).1 →
      s.Labels ≠ [] ∧ s.Labels.head? = some ⟨"__name__", mf.GetName⟩ ∧
      nameCount "__name__" s.Labels =
        1 + (metric.GetLabel.map LabelPair.GetName).count "__name__" ∧
      ((∀ l ∈ metric.GetLabel, l.GetName ≠ "__name__") →
        nameCount "__name__" s.Labels = 1)) ∧
    (∀ s ∈ (convertToTimeseries rt timestamp metricFamilies).1,
      ∃ mf ∈ metricFamilies, ∃ metric ∈ mf.GetMetric,
        s ∈ (convertToTimeseries rt timestamp [⟨mf.Name, mf.Type_, [metric]⟩]).1 ∧
        s.Labels ≠ [] ∧ s.Labels.head? = some ⟨"__name__", mf.GetName⟩ ∧
        nameCount "__name__" s.Labels =
          1 + (metric.GetLabel.map LabelPair.GetName).count "__name__" ∧
        ((∀ l ∈ metric.GetLabel, l.GetName ≠ "__name__") →
          nameCount "__name__" s.Labels = 1)) := by
  have hblocks : (convertToTimeseries rt timestamp metricFamilies).1 =
      metricFamilies.flatMap (fun mf => mf.GetMetric.flatMap (fun metric =>
        (convertToTimeseries rt timestamp [⟨mf.Name, mf.Type_, [metric]⟩]).1)) := by
    simp only [metricBatch_eq_expandMetric]
    rw [convertToTimeseries_eq_expand]
    rfl
  have hown : ∀ (mf : MetricFamily) (metric : Metric) (s : TimeSeries),
      s ∈ (convertToTimeseries rt timestamp [⟨mf.Name, mf.Type_, [metric]⟩]).1 →
      s.Labels ≠ [] ∧ s.Labels.head? = some ⟨"__name__", mf.GetName⟩ ∧
      nameCount "__name__" s.Labels =
        1 + (metric.GetLabel.map LabelPair.GetName).count "__name__" ∧
      ((∀ l ∈ metric.GetLabel, l.GetName ≠ "__name__") →
        nameCount "__name__" s.Labels = 1) := by
    intro mf metric s hs
    rw [metricBatch_eq_expandMetric] at hs
    obtain ⟨tail, v, rfl, htail⟩ := expandMetric_shape rt timestamp _ _ metric s hs
    have hcount : nameCount "__name__" (baseLabels mf.GetName metric ++ tail) =
        1 + (metric.GetLabel.map LabelPair.GetName).count "__name__" := by
      rw [nameCount_tail _ _ htail]
      simp only [nameCount, baseLabels, List.map_cons, List.map_map, List.count_cons_self]
      rw [Nat.add_comm]
      rfl
    refine ⟨by simp [baseLabels], by simp [baseLabels], hcount, ?_⟩
    intro hno
    rw [hcount, List.count_eq_zero.2]
    intro hmem
    obtain ⟨l, hl, hn⟩ := List.mem_map.1 hmem
    exact hno l hl hn
  refine ⟨hblocks, hown, ?_⟩
  intro s hs
  rw [hblocks] at hs
  obtain ⟨mf, hmf, h⟩ := List.mem_flatMap.1 hs
  obtain ⟨metric, hm, h1⟩ := List.mem_flatMap.1 h
  exact ⟨mf, hmf, metric, hm, h1, hown mf metric s h1⟩

/-- C5 (amended), on a map of the histogram and the counter families: the batch
is the four histogram series followed by the counter series, and the counter
series carries the name of the counter family, once. -/
theorem name_label_first_and_counted_witness :
    counterSeries ∈
      (convertToTimeseries gc 1000
        [⟨counterFamily.Name, counterFamily.Type_, [counterMetric]⟩]).1 ∧
    (convertToTimeseries gc 1000 [histogramFamily, counterFamily]).1 =
      (convertToTimeseries gc 1000 [histogramFamily]).1 ++ [counterSeries] ∧
    (counterSeries.Labels ≠ [] ∧
      counterSeries.Labels.head? = some ⟨"__name__", "app_requests_total"⟩ ∧
      nameCount "__name__" counterSeries.Labels =
        1 + (counterMetric.GetLabel.map LabelPair.GetName).count "__name__" ∧
      ((∀ l ∈ counterMetric.GetLabel, l.GetName ≠ "__name__") →
        nameCount "__name__" counterSeries.Labels = 1)) :=
  ⟨by decide,
    ((name_label_first_and_counted gc 1000 [histogramFamily, counterFamily]).1).trans
      (by decide),
    (name_label_first_and_counted gc 1000 [histogramFamily, counterFamily]).2.1
      counterFamily counterMetric counterSeries (by decide)⟩

/-- C6. Every series of the batch returned by one call has exactly one sample,
and the timestamp of that sample is the time captured once at the start of the
call, the same for the whole batch. -/
theorem one_sample_with_capture_time (rt : GoRuntime) (timestamp : Int)
    (metricFamilies : List MetricFamily) (s : TimeSeries)
    (hs : s ∈ (convertToTimeseries rt timestamp metricFamilies).1) :
    s.Samples.length = 1 ∧ ∀ sample ∈ s.Samples, sample.Timestamp = timestamp := by
  obtain ⟨mf, _, metric, _, h⟩ := mem_batch rt timestamp metricFamilies s hs
  obtain ⟨tail, v, rfl, _⟩ := expandMetric_shape rt timestamp _ _ metric s h
  exact ⟨rfl, by simp⟩

/-- C6, on the histogram and the counter sample families in one batch. -/
theorem one_sample_with_capture_time_witness :
    counterSeries ∈ (convertToTimeseries gc 1000 [histogramFamily, counterFamily]).1 ∧
    counterSeries.Samples.length = 1 ∧
    ∀ sample ∈ counterSeries.Samples, sample.Timestamp = 1000 :=
  ⟨by decide,
    one_sample_with_capture_time gc 1000 [histogramFamily, counterFamily] counterSeries
      (by decide)⟩

/-- C7. A metric whose payload for the declared type of its family is nil adds
no series to `timeseries`; the batch and the error returned are those of the
same input without that metric, so the series of the other metrics of the
family and of the other families are all emitted, unchanged; the error is nil. -/
theorem nil_payload_metric_is_skipped (rt : GoRuntime) (timestamp : Int)
    (pre post : List MetricFamily) (mf : MetricFamily) (before after : List Metric)
    (metric : Metric) (hm : mf.Metric = before ++ metric :: after)
    (h : payloadAbsent mf.GetType metric) :
    (∀ st : ConvState,
      (convertMetric rt timestamp mf.GetName mf.GetType st metric).timeseries = st.timeseries) ∧
    convertToTimeseries rt timestamp (pre ++ mf :: post) =
      convertToTimeseries rt timestamp (pre ++ ⟨mf.Name, mf.Type_, before ++ after⟩ :: post) ∧
    (convertToTimeseries rt timestamp (pre ++ mf :: post)).2 = none := by
  refine ⟨?_, ?_, rfl⟩
  · intro st
    generalize mf.GetType = ty at h
    cases ty <;> simp only [payloadAbsent] at h <;> simp [convertMetric, h, emitFound]
  · have hfam : expandFamily rt timestamp mf =
        expandFamily rt timestamp ⟨mf.Name, mf.Type_, before ++ after⟩ := by
      have hname : (⟨mf.Name, mf.Type_, before ++ after⟩ : MetricFamily).GetName = mf.GetName :=
        rfl
      have htype : (⟨mf.Name, mf.Type_, before ++ after⟩ : MetricFamily).GetType = mf.GetType :=
        rfl
      simp only [expandFamily, hname, htype, MetricFamily.GetMetric, hm, List.flatMap_append,
        List.flatMap_cons, expandMetric_absent rt timestamp mf.GetName mf.GetType metric h,
        List.nil_append]
    simp only [convertToTimeseries_eq_expand, List.flatMap_append, List.flatMap_cons, hfam]

/-- C7, on a GAUGE family whose first metric has a nil gauge: only the second
metric gives a series. -/
theorem nil_payload_metric_is_skipped_witness :
    payloadAbsent MetricType.GAUGE emptyGaugeMetric ∧
    convertToTimeseries gc 1000
        [⟨some "hits", some MetricType.GAUGE, [emptyGaugeMetric, gaugeMetric]⟩] =
      ([⟨[⟨"__name__", "hits"⟩, ⟨"path", "/a"⟩], [⟨float64OfUint64 1, 1000⟩]⟩], none) :=
  ⟨rfl,
    ((nil_payload_metric_is_skipped gc 1000 [] []
      ⟨some "hits", some MetricType.GAUGE, [emptyGaugeMetric, gaugeMetric]⟩ [] [gaugeMetric]
      emptyGaugeMetric rfl rfl).2.1).trans (by decide)⟩

/-! ## Properties of the HTTP exchanges and of the cycle -/

/-- C8. When the request is built and the write endpoint returns a response,
`pushToMimir` returns nil exactly when the status code is in 200..299;
otherwise it returns an error whose message contains the status code and the
response body. In both cases the call sends that one request and nothing else. -/
theorem push_result_follows_status (env : Env) (client : HttpClient) (url : String)
    (timeseries : List TimeSeries) (req : Request) (resp : Response)
    (hreq : buildRequest env url timeseries = Except.ok req)
    (hresp : client.Do req = Except.ok resp) :
    ((pushToMimir env client url timeseries).1 = none ↔
      (200 ≤ resp.StatusCode ∧ resp.StatusCode ≤ 299)) ∧
    (¬ (200 ≤ resp.StatusCode ∧ resp.StatusCode ≤ 299) →
      ∃ msg, (pushToMimir env client url timeseries).1 = some msg ∧
        Contains msg (toString resp.StatusCode) ∧ Contains msg resp.Body) ∧
    (pushToMimir env client url timeseries).2 = [IOEvent.httpDo req] ∧
    sentRequests (pushToMimir env client url timeseries).2 = 1 := by
  by_cases h : resp.StatusCode < 200 ∨ resp.StatusCode ≥ 300
  · have hp : pushToMimir env client url timeseries =
        (some ("unexpected status code " ++ toString resp.StatusCode ++ ": " ++ resp.Body),
          [IOEvent.httpDo req]) := by
      simp only [pushToMimir, hreq, hresp, if_pos h]
    have hn : ¬ (200 ≤ resp.StatusCode ∧ resp.StatusCode ≤ 299) := by omega
    rw [hp]
    refine ⟨by simp [hn], fun _ => ⟨_, rfl, ?_, ?_⟩, rfl, rfl⟩
    · exact ⟨"unexpected status code ", ": " ++ resp.Body, by simp [String.append_assoc]⟩
    · exact ⟨"unexpected status code " ++ toString resp.StatusCode ++ ": ", "", by simp⟩
  · have hp : pushToMimir env client url timeseries = (none, [IOEvent.httpDo req]) := by
      simp only [pushToMimir, hreq, hresp, if_neg h]
    have hy : 200 ≤ resp.StatusCode ∧ resp.StatusCode ≤ 299 := by omega
    rw [hp]
    exact ⟨by simp [hy], fun hn => absurd hy hn, rfl, rfl⟩

/-- C8, the scenario of the specification: status 500 with body `out of memory`
gives the error `unexpected status code 500: out of memory`. -/
theorem push_result_follows_status_witness :
    buildRequest sampleEnv mimirWriteURL [] = Except.ok sampleRequest ∧
    failingClient.Do sampleRequest = Except.ok ⟨500, "out of memory"⟩ ∧
    (pushToMimir sampleEnv failingClient mimirWriteURL []).1 =
      some "unexpected status code 500: out of memory" ∧
    (((pushToMimir sampleEnv failingClient mimirWriteURL []).1 = none ↔
      ((200 : Int) ≤ 500 ∧ (500 : Int) ≤ 299)) ∧
    (¬ ((200 : Int) ≤ 500 ∧ (500 : Int) ≤ 299) →
      ∃ msg, (pushToMimir sampleEnv failingClient mimirWriteURL []).1 = some msg ∧
        Contains msg (toString (500 : Int)) ∧ Contains msg "out of memory") ∧
    (pushToMimir sampleEnv failingClient mimirWriteURL []).2 = [IOEvent.httpDo sampleRequest] ∧
    sentRequests (pushToMimir sampleEnv failingClient mimirWriteURL []).2 = 1) :=
  ⟨rfl, rfl, by decide,
    push_result_follows_status sampleEnv failingClient mimirWriteURL [] sampleRequest
      ⟨500, "out of memory"⟩ rfl rfl⟩

/-- C9. When the scrape GET fails in transport or answers a status code outside
200..299, `scrapeMetrics` returns a nil map and an error, and the one GET is the
only call it made: no `Decode`, no second request. -/
theorem scrape_failure_returns_error (env : Env) (client : HttpClient) (url : String)
    (h : (∃ err, client.Get url = Except.error err) ∨
      (∃ resp, client.Get url = Except.ok resp ∧
        ¬ (200 ≤ resp.StatusCode ∧ resp.StatusCode ≤ 299))) :
    (∃ msg, (scrapeMetrics env client url).1 = (none, some msg)) ∧
    (scrapeMetrics env client url).2 = [IOEvent.httpGet url] := by
  rcases h with ⟨err, he⟩ | ⟨resp, hr, hs⟩
  · have hp : scrapeMetrics env client url =
        ((none, some ("failed to scrape: " ++ err)), [IOEvent.httpGet url]) := by
      simp only [scrapeMetrics, he]
    rw [hp]
    exact ⟨⟨_, rfl⟩, rfl⟩
  · have hne : resp.StatusCode ≠ 200 := by omega
    have hp : scrapeMetrics env client url =
        ((none, some ("unexpected status code: " ++ toString resp.StatusCode)),
          [IOEvent.httpGet url]) := by
      simp only [scrapeMetrics, hr, if_pos hne]
    rw [hp]
    exact ⟨⟨_, rfl⟩, rfl⟩

/-- C9, on a scrape endpoint that answers 503. -/
theorem scrape_failure_returns_error_witness :
    ((∃ err, failingClient.Get metricsURL = Except.error err) ∨
      (∃ resp, failingClient.Get metricsURL = Except.ok resp ∧
        ¬ (200 ≤ resp.StatusCode ∧ resp.StatusCode ≤ 299))) ∧
    (∃ msg, (scrapeMetrics sampleEnv failingClient metricsURL).1 = (none, some msg)) ∧
    (scrapeMetrics sampleEnv failingClient metricsURL).2 = [IOEvent.httpGet metricsURL] :=
  ⟨Or.inr ⟨⟨503, "unavailable"⟩, rfl, by decide⟩,
    scrape_failure_returns_error sampleEnv failingClient metricsURL
      (Or.inr ⟨⟨503, "unavailable"⟩, rfl, by decide⟩)⟩

theorem calls_append (a b : List CycleEvent) : calls (a ++ b) = calls a ++ calls b := by
  simp [calls, List.filterMap_append]

theorem calls_io (l : List IOEvent) : calls (l.map CycleEvent.io) = [] := by
  induction l with
  | nil => rfl
  | cons e es ih => simp [calls]

theorem calls_cons_call (c : Callee) (l : List CycleEvent) :
    calls (CycleEvent.call c :: l) = c :: calls l := by
  simp [calls]

theorem calls_nil : calls [] = [] := rfl

theorem calls_cons_log (msg : String) (l : List CycleEvent) :
    calls (CycleEvent.log msg :: l) = calls l := by
  simp [calls]

/-- C10. In one cycle the stage functions are called in the order
`scrapeMetrics`, `convertToTimeseries`, `pushToMimir`, each at most once, and a
stage is called only when every earlier stage returned a nil error: after a
scrape error nothing else is called, after a conversion error `pushToMimir` is
not called. This holds for any behaviour of the three stages, and so for
`scrapeAndPush`, where the conversion never fails. The cycle always ends with
its record, and `main` starts every cycle with a fresh `scrapeMetrics` call
whatever the earlier cycles did. -/
theorem cycle_stages_in_order_until_failure :
    (∀ (nowText : String) (scrape : (Option FamilyMap × Option String) × List IOEvent)
        (convert : Option FamilyMap → (List TimeSeries × Option String) × List IOEvent)
        (push : List TimeSeries → Option String × List IOEvent),
      calls (scrapeAndPushWith nowText scrape convert push) =
        if scrape.1.2.isSome then [Callee.scrapeMetrics]
        else if (convert scrape.1.1).1.2.isSome then
          [Callee.scrapeMetrics, Callee.convertToTimeseries]
        else [Callee.scrapeMetrics, Callee.convertToTimeseries, Callee.pushToMimir]) ∧
    (∀ (env : Env) (client : HttpClient),
      calls (scrapeAndPush env client) =
        if (scrapeMetrics env client metricsURL).1.2.isSome then [Callee.scrapeMetrics]
        else [Callee.scrapeMetrics, Callee.convertToTimeseries, Callee.pushToMimir]) ∧
    (∀ cycles : List (Env × HttpClient),
      (mainCycles cycles).map (fun tr => (calls tr).head?) =
        cycles.map (fun _ => some Callee.scrapeMetrics)) := by
  have generic : ∀ (nowText : String)
      (scrape : (Option FamilyMap × Option String) × List IOEvent)
      (convert : Option FamilyMap → (List TimeSeries × Option String) × List IOEvent)
      (push : List TimeSeries → Option String × List IOEvent),
      calls (scrapeAndPushWith nowText scrape convert push) =
        if scrape.1.2.isSome then [Callee.scrapeMetrics]
        else if (convert scrape.1.1).1.2.isSome then
          [Callee.scrapeMetrics, Callee.convertToTimeseries]
        else [Callee.scrapeMetrics, Callee.convertToTimeseries, Callee.pushToMimir] := by
    intro nowText scrape convert push
    unfold scrapeAndPushWith
    cases hs : scrape.1.2 with
    | some err => simp [hs, calls_append, calls_cons_call, calls_io, calls_cons_log, calls_nil]
    | none =>
      cases hc : (convert scrape.1.1).1.2 with
      | some err => simp [hs, hc, calls_append, calls_cons_call, calls_io, calls_cons_log, calls_nil]
      | none =>
        cases hq : (push (convert scrape.1.1).1.1).1 <;>
          simp [hs, hc, hq, calls_append, calls_cons_call, calls_io, calls_cons_log, calls_nil]
  have real : ∀ (env : Env) (client : HttpClient),
      calls (scrapeAndPush env client) =
        if (scrapeMetrics env client metricsURL).1.2.isSome then [Callee.scrapeMetrics]
        else [Callee.scrapeMetrics, Callee.convertToTimeseries, Callee.pushToMimir] := by
    intro env client
    unfold scrapeAndPush
    rw [generic]
    have hconv : ∀ m, ((convertStage env m).1.2.isSome) = false := fun m => rfl
    simp [hconv]
  refine ⟨generic, real, ?_⟩
  intro cycles
  simp only [mainCycles, List.map_map]
  apply List.map_congr_left
  intro c _
  simp only [Function.comp, real]
  split <;> rfl

/-! ## The empty batch, the request, the visiting order and the status checks -/

theorem rangeOrder_nil (env : Env) : env.rangeOrder [] = [] :=
  List.Perm.eq_nil (env.rangeOrder_perm [])

theorem convertStage_empty (env : Env) : convertStage env (some []) = (([], none), []) := by
  simp only [convertStage, Option.getD_some, rangeOrder_nil, List.map_nil]
  rfl

theorem calls_cons_io (e : IOEvent) (l : List CycleEvent) :
    calls (CycleEvent.io e :: l) = calls l := by
  simp [calls]

/-- Once the request is built, sending it is the one call `pushToMimir` makes,
whatever the client answers. -/
theorem pushToMimir_sends (env : Env) (client : HttpClient) (url : String)
    (timeseries : List TimeSeries) (req : Request)
    (hreq : buildRequest env url timeseries = Except.ok req) :
    (pushToMimir env client url timeseries).2 = [IOEvent.httpDo req] := by
  cases hd : client.Do req with
  | error err => simp only [pushToMimir, hreq, hd]
  | ok r =>
    by_cases h : r.StatusCode < 200 ∨ r.StatusCode ≥ 300
    · simp only [pushToMimir, hreq, hd, if_pos h]
    · simp only [pushToMimir, hreq, hd, if_neg h]

/-- C11. When the scrape GET answers 200 and the decoder finds no family in the
body, `scrapeMetrics` returns an empty map and a nil error,
`convertToTimeseries` returns an empty batch and a nil error, and the cycle
goes on to call `pushToMimir` with the empty batch: the record of the cycle is
the scrape, the conversion and then exactly what `pushToMimir` does for the
empty batch, so the request it builds for the empty batch is sent. -/
theorem empty_scrape_is_still_pushed (env : Env) (client : HttpClient) (resp : Response)
    (hget : client.Get metricsURL = Except.ok resp) (hcode : resp.StatusCode = 200)
    (hdec : env.decodeAll resp.Body = []) :
    (scrapeMetrics env client metricsURL).1 = (some [], none) ∧
    (convertStage env (some [])).1 = ([], none) ∧
    scrapeAndPush env client =
      [CycleEvent.call Callee.scrapeMetrics, CycleEvent.io (IOEvent.httpGet metricsURL),
        CycleEvent.io IOEvent.decode, CycleEvent.log "Scraped 0 metric families",
        CycleEvent.call Callee.convertToTimeseries, CycleEvent.log "Converted to 0 timeseries",
        CycleEvent.call Callee.pushToMimir] ++
      (pushToMimir env client mimirWriteURL []).2.map CycleEvent.io ++
      [CycleEvent.log (match (pushToMimir env client mimirWriteURL []).1 with
        | some err => "Error pushing to Mimir: " ++ err
        | none => "✓ Successfully pushed metrics to Mimir at " ++ env.nowText)] ∧
    calls (scrapeAndPush env client) =
      [Callee.scrapeMetrics, Callee.convertToTimeseries, Callee.pushToMimir] ∧
    (∀ req, buildRequest env mimirWriteURL [] = Except.ok req →
      CycleEvent.io (IOEvent.httpDo req) ∈ scrapeAndPush env client) := by
  have hs : scrapeMetrics env client metricsURL =
      ((some [], none), [IOEvent.httpGet metricsURL, IOEvent.decode]) := by
    simp [scrapeMetrics, hget, hcode, hdec, decodeLoop]
  have hrec : scrapeAndPush env client =
      [CycleEvent.call Callee.scrapeMetrics, CycleEvent.io (IOEvent.httpGet metricsURL),
        CycleEvent.io IOEvent.decode, CycleEvent.log "Scraped 0 metric families",
        CycleEvent.call Callee.convertToTimeseries, CycleEvent.log "Converted to 0 timeseries",
        CycleEvent.call Callee.pushToMimir] ++
      (pushToMimir env client mimirWriteURL []).2.map CycleEvent.io ++
      [CycleEvent.log (match (pushToMimir env client mimirWriteURL []).1 with
        | some err => "Error pushing to Mimir: " ++ err
        | none => "✓ Successfully pushed metrics to Mimir at " ++ env.nowText)] := by
    unfold scrapeAndPush scrapeAndPushWith
    simp only [hs, convertStage_empty]
    cases (pushToMimir env client mimirWriteURL []).1 <;> rfl
  refine ⟨by rw [hs], by rw [convertStage_empty], hrec, ?_, ?_⟩
  · rw [hrec]
    simp [calls_append, calls_cons_call, calls_io, calls_cons_io, calls_cons_log, calls_nil]
  · intro req hreq
    rw [hrec, pushToMimir_sends env client mimirWriteURL [] req hreq]
    simp

/-- C11, on a scrape endpoint that answers 200 with an empty body. -/
theorem empty_scrape_is_still_pushed_witness :
    emptyScrapeClient.Get metricsURL = Except.ok ⟨200, ""⟩ ∧
    sampleEnv.decodeAll "" = [] ∧
    scrapeAndPush sampleEnv emptyScrapeClient =
      [CycleEvent.call Callee.scrapeMetrics, CycleEvent.io (IOEvent.httpGet metricsURL),
        CycleEvent.io IOEvent.decode, CycleEvent.log "Scraped 0 metric families",
        CycleEvent.call Callee.convertToTimeseries, CycleEvent.log "Converted to 0 timeseries",
        CycleEvent.call Callee.pushToMimir, CycleEvent.io (IOEvent.httpDo sampleRequest),
        CycleEvent.log "✓ Successfully pushed metrics to Mimir at 12:00:00"] :=
  ⟨rfl, rfl,
    (empty_scrape_is_still_pushed sampleEnv emptyScrapeClient ⟨200, ""⟩ rfl rfl rfl).2.2.1.trans
      (by decide)⟩

theorem buildRequest_ok (env : Env) (url : String) (timeseries : List TimeSeries)
    (data : List UInt8) (hm : env.marshal ⟨timeseries⟩ = Except.ok data)
    (hr : env.newRequestErr "POST" url = none) :
    buildRequest env url timeseries =
      Except.ok ⟨"POST", url, env.snappyEncode data, remoteWriteHeaders⟩ := by
  simp only [buildRequest, hm, hr]
  rfl

/-- C12. When the batch serializes and the request for the URL is built, the
one call `pushToMimir` makes is `client.Do` on a request with method POST, the
given URL, as body the snappy encoding of the serialized `WriteRequest` whose
`Timeseries` is the given batch, and exactly the three headers
`Content-Encoding: snappy`, `Content-Type: application/x-protobuf` and
`X-Prometheus-Remote-Write-Version: 0.1.0`. -/
theorem push_sends_one_post_with_headers (env : Env) (client : HttpClient) (url : String)
    (timeseries : List TimeSeries) (data : List UInt8)
    (hm : env.marshal ⟨timeseries⟩ = Except.ok data)
    (hr : env.newRequestErr "POST" url = none) :
    (pushToMimir env client url timeseries).2 =
      [IOEvent.httpDo ⟨"POST", url, env.snappyEncode data,
        [("Content-Encoding", "snappy"), ("Content-Type", "application/x-protobuf"),
          ("X-Prometheus-Remote-Write-Version", "0.1.0")]⟩] ∧
    sentRequests (pushToMimir env client url timeseries).2 = 1 := by
  have h := pushToMimir_sends env client url timeseries _
    (buildRequest_ok env url timeseries data hm hr)
  rw [h]
  exact ⟨rfl, rfl⟩

/-- C12, on a batch of one series with codecs that leave a trace: the body is
255 followed by the serialization of the batch. -/
theorem push_sends_one_post_with_headers_witness :
    taggingEnv.marshal ⟨[counterSeries]⟩ = Except.ok [1] ∧
    taggingEnv.newRequestErr "POST" mimirWriteURL = none ∧
    (pushToMimir taggingEnv failingClient mimirWriteURL [counterSeries]).2 =
      [IOEvent.httpDo ⟨"POST", "http://localhost:9009/api/v1/push", [255, 1],
        [("Content-Encoding", "snappy"), ("Content-Type", "application/x-protobuf"),
          ("X-Prometheus-Remote-Write-Version", "0.1.0")]⟩] :=
  ⟨rfl, rfl,
    (push_sends_one_post_with_headers taggingEnv failingClient mimirWriteURL [counterSeries]
      [1] rfl rfl).1⟩

theorem batch_eq_blocks (rt : GoRuntime) (timestamp : Int) (families : List MetricFamily) :
    (convertToTimeseries rt timestamp families).1 =
      families.flatMap (fun mf => (convertToTimeseries rt timestamp [mf]).1) := by
  simp [convertToTimeseries_eq_expand]

theorem length_flatMap_sum (families : List MetricFamily) (f : MetricFamily → List TimeSeries) :
    (families.flatMap f).length = (families.map (fun mf => (f mf).length)).sum := by
  induction families with
  | nil => rfl
  | cons mf mfs ih => simp [List.flatMap_cons, ih]

/-- C13. For one capture time and two visiting orders of the same families, the
two batches are permutations of each other. Each batch is the concatenation,
in its visiting order, of one block per family, and the block of a family is
the batch that family gives alone, the same in both orders; the length of a
batch is the sum of the lengths of the blocks. Whatever order `range` picks in
a cycle, the batch is a permutation of the one for the entries as listed. -/
theorem batches_of_two_orders_are_permutations (rt : GoRuntime) (timestamp : Int)
    (families reordered : List MetricFamily) (h : families.Perm reordered) :
    ((convertToTimeseries rt timestamp families).1.Perm
      (convertToTimeseries rt timestamp reordered).1) ∧
    (convertToTimeseries rt timestamp families).1 =
      families.flatMap (fun mf => (convertToTimeseries rt timestamp [mf]).1) ∧
    (convertToTimeseries rt timestamp reordered).1 =
      reordered.flatMap (fun mf => (convertToTimeseries rt timestamp [mf]).1) ∧
    (convertToTimeseries rt timestamp families).1.length =
      (families.map (fun mf => (convertToTimeseries rt timestamp [mf]).1.length)).sum ∧
    (convertToTimeseries rt timestamp reordered).1.length =
      (convertToTimeseries rt timestamp families).1.length ∧
    (∀ (env : Env) (metrics : FamilyMap), env.rt = rt → env.nowMs = timestamp →
      ((convertStage env (some metrics)).1.1.Perm
        (convertToTimeseries rt timestamp (metrics.map Prod.snd)).1)) := by
  have hperm : ∀ a b : List MetricFamily, a.Perm b →
      (convertToTimeseries rt timestamp a).1.Perm (convertToTimeseries rt timestamp b).1 := by
    intro a b hab
    rw [batch_eq_blocks rt timestamp a, batch_eq_blocks rt timestamp b]
    exact List.Perm.flatMap_right _ hab
  refine ⟨hperm _ _ h, batch_eq_blocks rt timestamp families,
    batch_eq_blocks rt timestamp reordered, ?_, ?_, ?_⟩
  · rw [batch_eq_blocks rt timestamp families, length_flatMap_sum]
  · exact (hperm _ _ h).length_eq.symm
  · intro env metrics hrt hnow
    subst hrt hnow
    exact hperm _ _ ((env.rangeOrder_perm metrics).map Prod.snd)

/-- C13, on the histogram and the counter sample families in the two orders. -/
theorem batches_of_two_orders_are_permutations_witness :
    [histogramFamily, counterFamily].Perm [counterFamily, histogramFamily] ∧
    ((convertToTimeseries gc 1000 [histogramFamily, counterFamily]).1.Perm
      (convertToTimeseries gc 1000 [counterFamily, histogramFamily]).1) ∧
    (convertToTimeseries gc 1000 [counterFamily, histogramFamily]).1.length = 5 :=
  ⟨List.Perm.swap _ _ _,
    (batches_of_two_orders_are_permutations gc 1000 [histogramFamily, counterFamily]
      [counterFamily, histogramFamily] (List.Perm.swap _ _ _)).1,
    by decide⟩

theorem decodeLoop_decodes (results : List (Except String MetricFamily)) :
    ∀ metrics : FamilyMap, IOEvent.decode ∈ (decodeLoop results metrics).2 := by
  induction results with
  | nil => intro metrics; simp [decodeLoop]
  | cons r rs ih =>
    intro metrics
    cases r with
    | error err => simp [decodeLoop]
    | ok mf => simp [decodeLoop]

/-- C14. For a response to the scrape GET, `scrapeMetrics` calls the decoder
exactly when the status code is 200; for every other code, the 2xx codes
201..299 included, it returns a nil map and the error
`unexpected status code: <code>` after the one GET. `pushToMimir` returns nil
for every response code in 200..299. -/
theorem scrape_decodes_only_on_200 (env : Env) (client : HttpClient) (url : String)
    (resp : Response) (hget : client.Get url = Except.ok resp) :
    (resp.StatusCode ≠ 200 →
      scrapeMetrics env client url =
        ((none, some ("unexpected status code: " ++ toString resp.StatusCode)),
          [IOEvent.httpGet url])) ∧
    (resp.StatusCode = 200 →
      scrapeMetrics env client url =
        ((decodeLoop (env.decodeAll resp.Body) []).1,
          IOEvent.httpGet url :: (decodeLoop (env.decodeAll resp.Body) []).2)) ∧
    (IOEvent.decode ∈ (scrapeMetrics env client url).2 ↔ resp.StatusCode = 200) ∧
    (∀ (pushURL : String) (timeseries : List TimeSeries) (req : Request) (answer : Response),
      buildRequest env pushURL timeseries = Except.ok req →
      client.Do req = Except.ok answer →
      200 ≤ answer.StatusCode → answer.StatusCode ≤ 299 →
      (pushToMimir env client pushURL timeseries).1 = none) := by
  have hne : resp.StatusCode ≠ 200 →
      scrapeMetrics env client url =
        ((none, some ("unexpected status code: " ++ toString resp.StatusCode)),
          [IOEvent.httpGet url]) := by
    intro h
    simp only [scrapeMetrics, hget, if_pos h]
  have heq : resp.StatusCode = 200 →
      scrapeMetrics env client url =
        ((decodeLoop (env.decodeAll resp.Body) []).1,
          IOEvent.httpGet url :: (decodeLoop (env.decodeAll resp.Body) []).2) := by
    intro h
    have h2 : ¬ resp.StatusCode ≠ 200 := fun hn => hn h
    simp only [scrapeMetrics, hget, if_neg h2]
  refine ⟨hne, heq, ?_, ?_⟩
  · by_cases h : resp.StatusCode = 200
    · rw [heq h]
      simp [h, decodeLoop_decodes]
    · rw [hne h]
      simp [h]
  · intro pushURL timeseries req answer hreq hdo hlo hhi
    have hn : ¬ (answer.StatusCode < 200 ∨ answer.StatusCode ≥ 300) := by omega
    simp only [pushToMimir, hreq, hdo, if_neg hn]

/-- C14, on endpoints that answer 204: the scrape fails, the push succeeds. -/
theorem scrape_decodes_only_on_200_witness :
    noContentClient.Get metricsURL = Except.ok ⟨204, ""⟩ ∧
    scrapeMetrics sampleEnv noContentClient metricsURL =
      ((none, some "unexpected status code: 204"), [IOEvent.httpGet metricsURL]) ∧
    (pushToMimir sampleEnv noContentClient mimirWriteURL []).1 = none :=
  ⟨rfl,
    ((scrape_decodes_only_on_200 sampleEnv noContentClient metricsURL ⟨204, ""⟩ rfl).1
      (by decide)).trans (by decide),
    (scrape_decodes_only_on_200 sampleEnv noContentClient metricsURL ⟨204, ""⟩ rfl).2.2.2
      mimirWriteURL [] sampleRequest ⟨204, ""⟩ rfl rfl (by decide) (by decide)⟩

end MimirClient
